import Mathlib

/-!
# Verification of the insight-api-komodo transaction enrichment pipeline

Shallow embedding of `lib/transactions.js` (the `TxController` transaction
transformer, identity-name resolver and two-wave enrichment orchestrator)
together with proofs of the specified properties.

Modelling conventions:
* JavaScript objects used as string-keyed maps become association lists
  (`List (String × β)`); property assignment keeps the position of an
  existing key and appends new keys, as in V8 enumeration order.
* JavaScript truthiness on optional strings (`undefined`/`null`/`""` are
  falsy) is `jsTruthyStr`; object-valued fields are truthy iff present.
* The external RPC collaborators (`getIdentity`, `decodeScript`), the
  protocol-address registry, the chain height and the clock are pure
  oracles collected in `Env`; the single-threaded cooperative scheduling
  of the source makes the pipeline a deterministic function of them.
* JavaScript numbers holding monetary amounts are modelled as exact
  rationals (`ℚ`); integer satoshi inputs are `Nat`.
* Fallible operations return `Option`; the one crash point
  (`transaction.inputs[0]` on a coinbase record with no inputs) makes the
  transform itself return `Option`.
-/

set_option autoImplicit false

namespace InsightKomodo

universe u v

/-- Truthiness of a possibly-absent JavaScript string value: `undefined`,
`null` and the empty string are falsy. -/
def jsTruthyStr : Option String → Bool
  | none => false
  | some s => !(s == "")

/-- Property read on a JavaScript object modelled as an association list:
the value at the first (unique, by construction) occurrence of the key. -/
def objLookup {β : Type v} : List (String × β) → String → Option β
  | [], _ => none
  | p :: rest, k => if p.1 = k then some p.2 else objLookup rest k

/-- Property assignment `obj[k] = v` on a JavaScript object: an existing
key keeps its position and gets the new value, a new key is appended. -/
def objInsert {β : Type v} : List (String × β) → String → β → List (String × β)
  | [], k, v => [(k, v)]
  | p :: rest, k, v => if p.1 = k then (k, v) :: rest else p :: objInsert rest k v

/-- Building an object by assigning a list of key-value pairs in order. -/
def objFromPairs {β : Type v} (ps : List (String × β)) : List (String × β) :=
  ps.foldl (fun m p => objInsert m p.1 p.2) []

/-! ## Identity Name Resolver (`TxController.prototype.getIdentityFriendlyName`) -/

/-- Shape of the `identityinfo` sub-object of a `getidentity` RPC reply. -/
structure IdentityInfo where
  friendlyname : Option String
  deriving Repr, DecidableEq

/-- Shape of the `identity` sub-object of a `getidentity` RPC reply. -/
structure IdentityInner where
  name : Option String
  deriving Repr, DecidableEq

/-- A `getidentity` RPC reply object. -/
structure IdentityRec where
  identityinfo : Option IdentityInfo
  identity : Option IdentityInner
  deriving Repr, DecidableEq

/-- Outcome of the `getIdentity` service call: an error (any `err`,
including identity-not-found) or a possibly-null identity object. -/
inductive IdResult where
  | rpcError
  | ok (identity : Option IdentityRec)
  deriving Repr, DecidableEq

/-- The `endsWith` string method, computed on the character lists so the
kernel can evaluate it. -/
def strEndsWith (s suffix : String) : Bool :=
  s.data.drop (s.data.length - suffix.data.length) == suffix.data

/-- The `startsWith` / `indexOf(..) === 0` string test, computed on the
character lists so the kernel can evaluate it. -/
def strStartsWith (s pre : String) : Bool :=
  s.data.take pre.data.length == pre.data

/-- The `slice(0, -n)` string method: drop the last `n` characters. -/
def strDropRight (s : String) (n : Nat) : String :=
  ⟨s.data.take (s.data.length - n)⟩

/-- Removal of one trailing `@`, as in the guarded `slice(0, -1)` of the
source. -/
def stripAtSign (s : String) : String :=
  if strEndsWith s "@" then strDropRight s 1 else s

/-- Removal of one trailing `.VRSC`, as in the guarded `slice(0, -5)` of
the source. -/
def stripVRSC (s : String) : String :=
  if strEndsWith s ".VRSC" then strDropRight s 5 else s

/-- The `identity.name` fallback chain of `getIdentityFriendlyName`: use
`identity.identity.name` verbatim when truthy, else the address itself. -/
def fallbackName (iAddress : String) (idrec : IdentityRec) : String :=
  match idrec.identity with
  | some inner =>
    match inner.name with
    | some n => if n ≠ "" then n else iAddress
    | none => iAddress
  | none => iAddress

/-- Derivation of the friendly name from a successful `getidentity` reply:
prefer a truthy `identityinfo.friendlyname` (stripping one trailing `@`
then one trailing `.VRSC`), else a truthy `identity.name` verbatim, else
the address itself. -/
def deriveFriendlyName (iAddress : String) (identity : Option IdentityRec) : String :=
  match identity with
  | none => iAddress
  | some idrec =>
    match idrec.identityinfo with
    | some info =>
      match info.friendlyname with
      | some fn => if fn ≠ "" then stripVRSC (stripAtSign fn) else fallbackName iAddress idrec
      | none => fallbackName iAddress idrec
    | none => fallbackName iAddress idrec

/-- The process-lifetime identity-name cache `this.identityNameCache`. -/
abbrev Cache := List (String × String)

/-- Result of one `getIdentityFriendlyName` call: the name passed to the
callback, the cache state afterwards, and instrumentation recording
whether the `getIdentity` service was invoked (`didLookup = false` means
the synchronous cache fast path was taken, performing no I/O). The source
never passes an error to the callback, which the total return type
reflects. -/
structure ResolveResult where
  name : String
  cache : Cache
  didLookup : Bool
  deriving Repr, DecidableEq

/-- `getIdentityFriendlyName`: truthy cache hit short-circuits with the
cached value; otherwise the service is consulted, an error falls back to
the address without caching, and a success caches the derived name. -/
def resolve (getIdentity : String → IdResult) (cache : Cache) (iAddress : String) :
    ResolveResult :=
  if jsTruthyStr (objLookup cache iAddress) then
    { name := (objLookup cache iAddress).getD iAddress, cache := cache, didLookup := false }
  else
    match getIdentity iAddress with
    | .rpcError => { name := iAddress, cache := cache, didLookup := true }
    | .ok identity =>
      let friendlyName := deriveFriendlyName iAddress identity
      { name := friendlyName
        cache := objInsert cache iAddress friendlyName
        didLookup := true }

/-- Resolution of a list of addresses in order, threading the cache, as
`async.map` over `getIdentityFriendlyName` does for the pairwise-distinct
address lists of each wave (entries of one wave touch pairwise-distinct
cache keys, so the cooperative interleaving is equivalent to this
left-to-right pass). -/
def resolveList (getIdentity : String → IdResult) (cache : Cache) :
    List String → List (String × String) × Cache
  | [] => ([], cache)
  | a :: rest =>
    let r := resolve getIdentity cache a
    let rr := resolveList getIdentity r.cache rest
    ((a, r.name) :: rr.1, rr.2)

/-! ## Raw data model (node-provided records) -/

/-- Opaque JSON object payload copied through unchanged by the transform;
object-valued fields are always truthy in JavaScript, so presence is just
`Option.isSome`. -/
abbrev JsObj := String

/-- The `destination` sub-object of a `reservetransfer` payload. -/
structure RTDestination where
  address : Option String
  deriving Repr, DecidableEq

/-- A `reservetransfer` output payload. -/
structure ReserveTransfer where
  destination : Option RTDestination
  crosssystem : Bool
  exportto : Option String
  deriving Repr, DecidableEq

/-- A `crosschainimport` output payload with its `valuein` mapping from
identity address to amount. -/
structure CrossChainImport where
  valuein : Option (List (String × Int))
  deriving Repr, DecidableEq

/-- A raw transaction output as supplied by the node. -/
structure RawOutput where
  satoshis : Nat
  script : Option String
  scriptAsm : Option String
  address : Option String
  addresses : Option (List String)
  spentTxId : Option String
  spentIndex : Option Int
  spentHeight : Option Int
  identityprimary : Option JsObj
  currencydefinition : Option JsObj
  script_reserve_balance : Option JsObj
  finalizeNotarization : Option JsObj
  crosschainimport : Option CrossChainImport
  crosschainexport : Option JsObj
  identitycommitment : Option JsObj
  reservetransfer : Option ReserveTransfer
  pbaasNotarization : Option JsObj
  deriving Repr, DecidableEq

/-- A raw transaction input as supplied by the node. -/
structure RawInput where
  prevTxId : String
  outputIndex : Int
  sequence : Nat
  script : String
  scriptAsm : Option String
  address : Option String
  addresses : Option (List String)
  satoshis : Nat
  deriving Repr, DecidableEq

/-- A raw join-split description. -/
structure RawJoinSplit where
  oldZatoshis : Nat
  newZatoshis : Nat
  deriving Repr, DecidableEq

/-- A raw detailed transaction record as supplied by the node. -/
structure RawTransaction where
  hash : String
  version : Nat
  locktime : Nat
  coinbase : Bool
  inputs : List RawInput
  outputs : List RawOutput
  joinSplits : List RawJoinSplit
  blockHash : Option String
  height : Int
  blockTimestamp : Option Int
  outputSatoshis : Nat
  inputSatoshis : Nat
  feeSatoshis : Nat
  hex : String
  fOverwintered : Bool
  nVersionGroupId : Option Int
  nExpiryHeight : Option Int
  valueBalance : Option Int
  spendDescs : Option JsObj
  outputDescs : Option JsObj
  bindingSig : Option String
  deriving Repr, DecidableEq

/-! ## External collaborators -/

/-- A protocol-address registry entry (`protocol-addresses.json`). -/
structure ProtocolMeta where
  name : String
  description : String
  color : String
  icon : String
  deriving Repr, DecidableEq

/-- The `feepool` sub-object of a `decodescript` reply. -/
structure DecodedFeePool where
  currencyvalues : Option (List (String × Int))
  deriving Repr, DecidableEq

/-- The `acceptednotarization` sub-object of a `decodescript` reply. -/
structure DecodedAcceptedNot where
  currencyid : Option String
  deriving Repr, DecidableEq

/-- The `result` object of a successful `decodescript` RPC reply. -/
structure DecodedScript where
  feepool : Option DecodedFeePool
  acceptednotarization : Option DecodedAcceptedNot
  p2sh : Option String
  deriving Repr, DecidableEq

/-- The pure oracles standing for the external collaborators: the
identity lookup service, the script decode service (`none` is an RPC
error, downgraded to a null decoded payload by the source), the static
protocol-address registry, the chain height, the clock, and the bitcore
address-type classifier. The single-threaded cooperative scheduling of
the source makes the whole transform a deterministic function of these. -/
structure Env where
  getIdentity : String → IdResult
  decodeScript : String → Option DecodedScript
  registry : String → Option ProtocolMeta
  chainHeight : Int
  nowSeconds : Int
  addrType : String → String

/-- The recognized transform options `{noScriptSig, noAsm, noSpent}`. -/
structure TransformOptions where
  noScriptSig : Bool := false
  noAsm : Bool := false
  noSpent : Bool := false
  deriving Repr, DecidableEq

/-! ## Transformed (public) schema -/

/-- Decimal rendering of a satoshi amount to exactly eight decimal
places: the value of `(satoshis / 1e8).toFixed(8)` computed exactly (the
source computes it through IEEE-754 doubles, which agree on the satoshi
ranges that occur on chain). -/
def toFixed8 (satoshis : Nat) : String :=
  let frac := toString (satoshis % 100000000)
  toString (satoshis / 100000000) ++ "." ++
    ⟨List.replicate (8 - frac.length) (Char.ofNat 48) ++ frac.data⟩

/-- The transformed `scriptSig` object. -/
structure TScriptSig where
  hex : String
  asm : Option String
  deriving Repr, DecidableEq

/-- A transformed non-coinbase input. -/
structure TIn where
  txid : String
  vout : Int
  sequence : Nat
  n : Nat
  scriptSig : Option TScriptSig
  addr : Option String
  valueSat : Nat
  value : ℚ
  doubleSpentTxID : Option String
  deriving DecidableEq

/-- A transformed `vin` entry: the single synthetic coinbase input
(`{coinbase, sequence, n}`) or a regular transformed input. -/
inductive TVinEntry where
  | coinbase (script : String) (sequence : Nat) (n : Nat)
  | regular (inp : TIn)
  deriving DecidableEq

/-- The transformed `scriptPubKey` object. -/
structure TScriptPubKey where
  hex : Option String
  asm : Option String
  addresses : Option (List String)
  type : Option String
  deriving Repr, DecidableEq

/-- The transformed `crosschainimport` payload, later enriched with the
friendly-keyed `valueinFriendly` mapping. -/
structure TCrossChainImport where
  valuein : Option (List (String × Int))
  valueinFriendly : Option (List (String × Int))
  deriving Repr, DecidableEq

/-- The fee-pool payload attached after a successful script decode,
later enriched with the friendly-keyed `currencyvaluesFriendly`. -/
structure TFeePool where
  currencyvalues : List (String × Int)
  currencyvaluesFriendly : Option (List (String × Int))
  deriving Repr, DecidableEq

/-- The accepted-notarization payload attached after a successful script
decode, later enriched with `currencyNameFriendly`. -/
structure TAcceptedNot where
  currencyid : Option String
  currencyNameFriendly : Option String
  deriving Repr, DecidableEq

/-- The `other_commitment` annotation; the source assigns it repeatedly,
the last applicable payload kind winning. -/
inductive OtherCommitment where
  | crosschainimportFlag
  | crosschainexportFlag
  | identitycommitmentVal (v : JsObj)
  | reservetransferFlag
  | pbaasNotarizationFlag
  deriving Repr, DecidableEq

/-- A transformed output. -/
structure TOut where
  value : String
  n : Nat
  scriptPubKey : TScriptPubKey
  identityprimary : Option JsObj
  currencydefinition : Option JsObj
  script_reserve_balance : Option JsObj
  addresses : Option (List String)
  finalizeNotarization : Option JsObj
  needsScriptDecode : Bool
  scriptHex : Option String
  scriptDecodeType : Option String
  isProtocolAddress : Bool
  protocolName : Option String
  protocolDescription : Option String
  protocolColor : Option String
  protocolIcon : Option String
  originalProtocolAddress : Option String
  crosschainimport : Option TCrossChainImport
  other_commitment : Option OtherCommitment
  reservetransfer : Option ReserveTransfer
  actualDestination : Option String
  isCrossChainToEthereum : Bool
  spentTxId : Option String
  spentIndex : Option Int
  spentHeight : Option Int
  feepool : Option TFeePool
  acceptednotarization : Option TAcceptedNot
  p2shAddress : Option String
  isP2SH : Bool
  deriving Repr, DecidableEq

/-- A transformed join-split entry. -/
structure TJoinSplit where
  vpub_old : String
  vpub_new : String
  n : Nat
  deriving Repr, DecidableEq

/-- The transformed transaction object. -/
structure TransformedTx where
  txid : String
  version : Nat
  locktime : Nat
  vin : List TVinEntry
  vout : List TOut
  vjoinsplit : Option (List TJoinSplit)
  blockhash : Option String
  blockheight : Int
  confirmations : Int
  time : Int
  blocktime : Option Int
  isCoinBase : Bool
  valueOut : ℚ
  size : ℚ
  valueIn : Option ℚ
  fees : Option ℚ
  fOverwintered : Bool
  nVersionGroupId : Option Int
  nExpiryHeight : Option Int
  valueBalance : Option Int
  spendDescs : Option JsObj
  outputDescs : Option JsObj
  bindingSig : Option String
  deriving DecidableEq

/-! ## `TxController.prototype.transformOutput` -/

/-- The fee-pool protocol address whose outputs need a script decode. -/
def feePoolAddress : String := "RQ55dLQ7uGnLx8scXfkaFV6QS6qVBGyxAG"

/-- The accepted-notarization protocol address whose outputs need a
script decode. -/
def acceptedNotAddress : String := "RDTq9qn1Lthv7fvsdbWz36mGp8HK9XaruZ"

/-- The Ethereum bridge system identity compared against `exportto`. -/
def ethSystemId : String := "i9nwxtKuVYX4MSbeULLiK2ttVi6rUEhh4X"

/-- The value of `output.address || (output.addresses && output.addresses[0])`. -/
def outputAddressOf (output : RawOutput) : Option String :=
  match output.address with
  | some a => if a ≠ "" then some a else output.addresses.bind List.head?
  | none => output.addresses.bind List.head?

/-- The truthy protocol-registry hit for an output, paired with the
address that matched. -/
def protocolHit (env : Env) (output : RawOutput) : Option (String × ProtocolMeta) :=
  match outputAddressOf output with
  | some a => if a ≠ "" then (env.registry a).map (fun m => (a, m)) else none
  | none => none

/-- Transformation of one raw output into its pre-enrichment public
shape, mirroring `transformOutput` field by field (including the decode
flagging for anonymous OP_RETURN outputs and for the two well-known
protocol addresses, where a later flag assignment overwrites an earlier
one). -/
def transformOutput (env : Env) (opts : TransformOptions) (output : RawOutput)
    (index : Nat) : TOut :=
  let opretFlag : Bool :=
    jsTruthyStr output.scriptAsm && strStartsWith (output.scriptAsm.getD "") "OP_RETURN"
      && jsTruthyStr output.script && !(jsTruthyStr output.address)
  let proto := protocolHit env output
  let feepoolFlag : Bool :=
    match proto with
    | some pm => pm.1 == feePoolAddress && jsTruthyStr output.script
    | none => false
  let accnotFlag : Bool :=
    match proto with
    | some pm => pm.1 == acceptedNotAddress && jsTruthyStr output.script
    | none => false
  let needsDecode := opretFlag || feepoolFlag || accnotFlag
  let oc0 : Option OtherCommitment := none
  let oc1 := if output.crosschainimport.isSome then some OtherCommitment.crosschainimportFlag else oc0
  let oc2 := if output.crosschainexport.isSome then some OtherCommitment.crosschainexportFlag else oc1
  let oc3 := match output.identitycommitment with
    | some v => some (OtherCommitment.identitycommitmentVal v)
    | none => oc2
  let oc4 := if output.reservetransfer.isSome then some OtherCommitment.reservetransferFlag else oc3
  let oc5 := if output.pbaasNotarization.isSome then some OtherCommitment.pbaasNotarizationFlag else oc4
  let rtDest : Option String :=
    match output.reservetransfer with
    | some rt =>
      match rt.destination with
      | some d => match d.address with
        | some a => if a ≠ "" then some a else none
        | none => none
      | none => none
    | none => none
  { value := toFixed8 output.satoshis
    n := index
    scriptPubKey :=
      { hex := output.script
        asm := if opts.noAsm then none else output.scriptAsm
        addresses := match output.address with
          | some a => if a ≠ "" then some [a] else none
          | none => none
        type := match output.address with
          | some a => if a ≠ "" then some (env.addrType a) else none
          | none => none }
    identityprimary := output.identityprimary
    currencydefinition := output.currencydefinition
    script_reserve_balance := output.script_reserve_balance
    addresses := output.addresses
    finalizeNotarization := output.finalizeNotarization
    needsScriptDecode := needsDecode
    scriptHex := if needsDecode then output.script else none
    scriptDecodeType :=
      if accnotFlag then some "acceptednotarization"
      else if feepoolFlag then some "feepool"
      else if opretFlag then some "opreturn"
      else none
    isProtocolAddress := proto.isSome
    protocolName := proto.map (fun pm => pm.2.name)
    protocolDescription := proto.map (fun pm => pm.2.description)
    protocolColor := proto.map (fun pm => pm.2.color)
    protocolIcon := proto.map (fun pm => pm.2.icon)
    originalProtocolAddress := proto.map (fun pm => pm.1)
    crosschainimport := output.crosschainimport.map (fun c => ⟨c.valuein, none⟩)
    other_commitment := oc5
    reservetransfer := output.reservetransfer
    actualDestination := rtDest
    isCrossChainToEthereum :=
      match output.reservetransfer with
      | some rt => rtDest.isSome && rt.crosssystem && (rt.exportto == some ethSystemId)
      | none => false
    spentTxId := if opts.noSpent then none else
      match output.spentTxId with
      | some s => if s ≠ "" then some s else none
      | none => none
    spentIndex := if opts.noSpent then none else output.spentIndex
    spentHeight := if opts.noSpent then none else
      match output.spentHeight with
      | some h => if h ≠ 0 then some h else none
      | none => none
    feepool := none
    acceptednotarization := none
    p2shAddress := none
    isP2SH := false }

/-! ## `transformInput` and `transformJoinSplit` -/

/-- Transformation of one raw non-coinbase input. -/
def transformInput (opts : TransformOptions) (input : RawInput) (index : Nat) : TIn :=
  { txid := input.prevTxId
    vout := input.outputIndex
    sequence := input.sequence
    n := index
    scriptSig :=
      if opts.noScriptSig then none
      else some { hex := input.script, asm := if opts.noAsm then none else input.scriptAsm }
    addr :=
      match input.address with
      | some a => if a ≠ "" then some a else input.addresses.map (String.intercalate ",")
      | none => input.addresses.map (String.intercalate ",")
    valueSat := input.satoshis
    value := (input.satoshis : ℚ) / 100000000
    doubleSpentTxID := none }

/-- Transformation of one join-split description. -/
def transformJoinSplit (_opts : TransformOptions) (jsdesc : RawJoinSplit) (index : Nat) :
    TJoinSplit :=
  { vpub_old := toFixed8 jsdesc.oldZatoshis
    vpub_new := toFixed8 jsdesc.newZatoshis
    n := index }

/-! ## Enrichment orchestrator (the body of `transformTransaction`) -/

/-- Pairing of list elements with their indices, as `Array.prototype.map`
and `forEach` expose them. -/
def enumFrom {α : Type u} : Nat → List α → List (Nat × α)
  | _, [] => []
  | i, a :: l => (i, a) :: enumFrom (i + 1) l

/-- Elements of a list paired with their zero-based indices. -/
def enumList {α : Type u} (l : List α) : List (Nat × α) := enumFrom 0 l

/-- The skeleton outputs `transformed.vout` before enrichment. -/
def initialVouts (env : Env) (opts : TransformOptions) (tx : RawTransaction) : List TOut :=
  (enumList tx.outputs).map (fun p => transformOutput env opts p.2 p.1)

/-- The dedup-append of one candidate identity address onto the running
`iAddressesToResolve` list: appended iff it starts with `i` and is not
already present. -/
def pushAddr (addrs : List String) (a : String) : List String :=
  if strStartsWith a "i" && !(addrs.contains a) then addrs ++ [a] else addrs

/-- Dedup-append of a list of mapping keys, in enumeration order. -/
def pushIAddrs (addrs : List String) (keys : List String) : List String :=
  keys.foldl pushAddr addrs

/-- Scan pass over the skeleton outputs: the distinct identity addresses
appearing as keys of any `crosschainimport.valuein` mapping, in first
appearance order (wave-1 resolution set). -/
def firstWaveAddrs (vouts : List TOut) : List String :=
  vouts.foldl
    (fun addrs vout =>
      match vout.crosschainimport with
      | some cci =>
        match cci.valuein with
        | some vin => pushIAddrs addrs (vin.map Prod.fst)
        | none => addrs
      | none => addrs)
    []

/-- One element of the `scriptsDecoded` result list: the output index,
the decoded payload (`null` on RPC error) and the declared decode type. -/
structure DecodeItem where
  idx : Nat
  decoded : Option DecodedScript
  type : String
  deriving Repr, DecidableEq

/-- Decode pass over the flagged outputs: each flagged index paired with
the decode-service reply for its script. -/
def decodeItemsOf (env : Env) (vouts : List TOut) : List DecodeItem :=
  ((enumList vouts).filter (fun p => p.2.needsScriptDecode)).map
    (fun p =>
      { idx := p.1
        decoded := env.decodeScript (p.2.scriptHex.getD "")
        type := p.2.scriptDecodeType.getD "" })

/-- The truthy chain `item.decoded && item.decoded.feepool &&
item.decoded.feepool.currencyvalues`. -/
def feepoolOfDecoded (d : Option DecodedScript) : Option (List (String × Int)) :=
  match d with
  | some dd =>
    match dd.feepool with
    | some fp => fp.currencyvalues
    | none => none
  | none => none

/-- The truthy chain `item.decoded && item.decoded.acceptednotarization`. -/
def accnotOfDecoded (d : Option DecodedScript) : Option DecodedAcceptedNot :=
  d.bind DecodedScript.acceptednotarization

/-- The truthy chain `item.decoded && item.decoded.p2sh` (a string, so
the empty string is falsy). -/
def p2shOfDecoded (d : Option DecodedScript) : Option String :=
  match d.bind DecodedScript.p2sh with
  | some s => if s ≠ "" then some s else none
  | none => none

/-- Post-decode expansion of one output: attach the fee-pool payload and
collect its unseen identity-address keys. -/
def stepFeepool (vout : TOut) (addrs : List String) (item : DecodeItem) :
    TOut × List String :=
  if item.type = "feepool" then
    match feepoolOfDecoded item.decoded with
    | some cv =>
      ({ vout with feepool := some { currencyvalues := cv, currencyvaluesFriendly := none } },
        pushIAddrs addrs (cv.map Prod.fst))
    | none => (vout, addrs)
  else (vout, addrs)

/-- Post-decode expansion of one output: attach the notarization payload
and collect its currency identity address when unseen. -/
def stepAccnot (vout : TOut) (addrs : List String) (item : DecodeItem) :
    TOut × List String :=
  if item.type = "acceptednotarization" then
    match accnotOfDecoded item.decoded with
    | some an =>
      let attached : TAcceptedNot := { currencyid := an.currencyid, currencyNameFriendly := none }
      ({ vout with acceptednotarization := some attached },
        match an.currencyid with
        | some c => if c ≠ "" then pushAddr addrs c else addrs
        | none => addrs)
    | none => (vout, addrs)
  else (vout, addrs)

/-- Post-decode expansion of one output: attach the OP_RETURN-embedded
P2SH redemption address. -/
def stepOpreturn (vout : TOut) (item : DecodeItem) : TOut :=
  if item.type = "opreturn" then
    match p2shOfDecoded item.decoded with
    | some s => { vout with p2shAddress := some s, isP2SH := true }
    | none => vout
  else vout

/-- Post-decode expansion of one output under its decode item: the three
type-directed attachment steps of the `scriptsDecoded.forEach` body. -/
def processVoutAddrs (vout : TOut) (addrs : List String) (item : DecodeItem) :
    TOut × List String :=
  let s1 := stepFeepool vout addrs item
  let s2 := stepAccnot s1.1 s1.2 item
  (stepOpreturn s2.1 item, s2.2)

/-- In-place update of a list at an index, as the assignment to
`transformed.vout[item.idx]` behaves. -/
def setAt {α : Type u} : List α → Nat → α → List α
  | [], _, _ => []
  | _ :: rest, 0, v => v :: rest
  | x :: rest, n + 1, v => x :: setAt rest n v

/-- Application of one decode item to the running expansion state
(current outputs, running address list). -/
def applyDecodedItem (st : List TOut × List String) (item : DecodeItem) :
    List TOut × List String :=
  match st.1.get? item.idx with
  | none => st
  | some vout0 =>
    let pr := processVoutAddrs vout0 st.2 item
    (setAt st.1 item.idx pr.1, pr.2)

/-- The post-decode expansion pass: every decode item applied in order,
starting from the skeleton outputs and the wave-1 address set. -/
def expandDecoded (env : Env) (vouts : List TOut) : List TOut × List String :=
  (decodeItemsOf env vouts).foldl applyDecodedItem (vouts, firstWaveAddrs vouts)

/-- The pending list of wave 2: the addresses discovered only by
decoding, in discovery order (`iAddressesToResolve.slice(results.namesResolved.length)`). -/
def secondWaveAddrs (env : Env) (vouts : List TOut) : List String :=
  (expandDecoded env vouts).2.drop (firstWaveAddrs vouts).length

/-- All resolution results of both waves in call order: wave 1 over the
scan-pass addresses, then (cache threaded through) wave 2 over the
pending addresses. -/
def resolvedPairs (env : Env) (cache : Cache) (vouts : List TOut) :
    List (String × String) :=
  let w1 := resolveList env.getIdentity cache (firstWaveAddrs vouts)
  let w2 := resolveList env.getIdentity w1.2 (secondWaveAddrs env vouts)
  w1.1 ++ w2.1

/-- The cache state after both resolution waves. -/
def cacheAfterWaves (env : Env) (cache : Cache) (vouts : List TOut) : Cache :=
  (resolveList env.getIdentity
    (resolveList env.getIdentity cache (firstWaveAddrs vouts)).2
    (secondWaveAddrs env vouts)).2

/-- The combined `nameMapping` object built from every resolution of both
waves. -/
def nameMappingOf (env : Env) (cache : Cache) (vouts : List TOut) :
    List (String × String) :=
  objFromPairs (resolvedPairs env cache vouts)

/-- The merge-pass key substitution `nameMapping[iAddress] || iAddress`:
the resolved name when truthy, else the address itself. -/
def friendlyKey (nm : List (String × String)) (a : String) : String :=
  match objLookup nm a with
  | some s => if s ≠ "" then s else a
  | none => a

/-- A friendly-keyed parallel mapping: every key substituted through
`friendlyKey`, values assigned in enumeration order (a later entry whose
substituted key collides overwrites the earlier value). -/
def buildFriendly (nm : List (String × String)) (m : List (String × Int)) :
    List (String × Int) :=
  objFromPairs (m.map (fun p => (friendlyKey nm p.1, p.2)))

/-- The merge pass on one output, first block: attach `valueinFriendly`
when the output carries a truthy `crosschainimport.valuein`. -/
def mergeCci (nm : List (String × String)) (vout : TOut) : TOut :=
  match vout.crosschainimport with
  | some cci =>
    match cci.valuein with
    | some vin =>
      let cci2 := { cci with valueinFriendly := some (buildFriendly nm vin) }
      { vout with crosschainimport := some cci2 }
    | none => vout
  | none => vout

/-- The merge pass on one output, second block: attach
`currencyvaluesFriendly` when a fee-pool payload is attached. -/
def mergeFeepool (nm : List (String × String)) (vout : TOut) : TOut :=
  match vout.feepool with
  | some fp =>
    let fp2 := { fp with currencyvaluesFriendly := some (buildFriendly nm fp.currencyvalues) }
    { vout with feepool := some fp2 }
  | none => vout

/-- The merge pass on one output, third block: attach
`currencyNameFriendly` when a notarization with a truthy `currencyid` is
attached. -/
def mergeAccnot (nm : List (String × String)) (vout : TOut) : TOut :=
  match vout.acceptednotarization with
  | some an =>
    match an.currencyid with
    | some c =>
      if c ≠ "" then
        let an2 := { an with currencyNameFriendly := some (friendlyKey nm c) }
        { vout with acceptednotarization := some an2 }
      else vout
    | none => vout
  | none => vout

/-- The merge pass on one output: attach `valueinFriendly`,
`currencyvaluesFriendly` and `currencyNameFriendly` wherever the
corresponding source mapping is present (the three sequential blocks of
the `applyNamesAndContinue` forEach body). -/
def applyFriendly (nm : List (String × String)) (vout : TOut) : TOut :=
  mergeAccnot nm (mergeFeepool nm (mergeCci nm vout))

/-- The fully enriched outputs: skeleton vouts, post-decode expansion,
then the merge pass under the combined name mapping. -/
def finalVouts (env : Env) (opts : TransformOptions) (cache : Cache)
    (tx : RawTransaction) : List TOut :=
  let vouts := initialVouts env opts tx
  ((expandDecoded env vouts).1).map (applyFriendly (nameMappingOf env cache vouts))

/-! ## `TxController.prototype.transformTransaction` -/

/-- The `vin` construction: a coinbase record yields the single synthetic
input built from `transaction.inputs[0]` (a coinbase record with no
inputs makes the source throw, modelled as `none`); otherwise every raw
input is mapped. -/
def mkVinOpt (opts : TransformOptions) (tx : RawTransaction) : Option (List TVinEntry) :=
  if tx.coinbase then
    match tx.inputs with
    | i :: _ => some [TVinEntry.coinbase i.script i.sequence 0]
    | [] => none
  else
    some ((enumList tx.inputs).map (fun p => TVinEntry.regular (transformInput opts p.2 p.1)))

/-- Assembly of the final transformed object around a built `vin`,
mirroring the field assignments of `transformTransaction` and
`continueTransform`. -/
def assembleTransform (env : Env) (opts : TransformOptions) (cache : Cache)
    (tx : RawTransaction) (vin : List TVinEntry) : TransformedTx :=
  let confirmations : Int :=
    if tx.height ≥ 0 then env.chainHeight - tx.height + 1 else 0
  let time : Int :=
    match tx.blockTimestamp with
    | some ts => if ts ≠ 0 then ts else env.nowSeconds
    | none => env.nowSeconds
  let saplingActive := tx.fOverwintered && decide (tx.version ≥ 4)
  { txid := tx.hash
    version := tx.version
    locktime := tx.locktime
    vin := vin
    vout := finalVouts env opts cache tx
    vjoinsplit :=
      if tx.version ≥ 2 then
        some ((enumList tx.joinSplits).map (fun p => transformJoinSplit opts p.2 p.1))
      else none
    blockhash := tx.blockHash
    blockheight := tx.height
    confirmations := confirmations
    time := time
    blocktime := if confirmations ≠ 0 then some time else none
    isCoinBase := tx.coinbase
    valueOut := (tx.outputSatoshis : ℚ) / 100000000
    size := (tx.hex.length : ℚ) / 2
    valueIn := if tx.coinbase then none else some ((tx.inputSatoshis : ℚ) / 100000000)
    fees := if tx.coinbase then none else some ((tx.feeSatoshis : ℚ) / 100000000)
    fOverwintered := tx.fOverwintered
    nVersionGroupId := if tx.fOverwintered then tx.nVersionGroupId else none
    nExpiryHeight := if tx.fOverwintered then tx.nExpiryHeight else none
    valueBalance := if saplingActive then tx.valueBalance else none
    spendDescs := if saplingActive then tx.spendDescs else none
    outputDescs := if saplingActive then tx.outputDescs else none
    bindingSig :=
      if saplingActive then
        match tx.bindingSig with
        | some b => if b ≠ "" then some b else none
        | none => none
      else none }

/-- The whole transform: a deterministic function of the oracles, the
cache state at call time and the raw record; the callback error argument
is always `null` in the source, so the only `none` is the crash on a
coinbase record with no inputs. -/
def transformTransaction (env : Env) (opts : TransformOptions) (cache : Cache)
    (tx : RawTransaction) : Option TransformedTx :=
  (mkVinOpt opts tx).map (assembleTransform env opts cache tx)

/-! ## Helper lemmas: JavaScript object semantics -/

section ObjLemmas

variable {β : Type v}

theorem objLookup_objInsert (m : List (String × β)) (k : String) (v : β) (q : String) :
    objLookup (objInsert m k v) q = if q = k then some v else objLookup m q := by
  induction m with
  | nil =>
    simp only [objInsert, objLookup]
    rcases eq_or_ne q k with h | h
    · simp [h]
    · simp [h, Ne.symm h]
  | cons p rest ih =>
    simp only [objInsert]
    by_cases hpk : p.1 = k
    · simp only [if_pos hpk, objLookup]
      rcases eq_or_ne q k with h | h
      · simp [h]
      · simp [hpk, h, Ne.symm h]
    · simp only [if_neg hpk, objLookup]
      by_cases hpq : p.1 = q
      · have hq : q ≠ k := fun h => hpk (hpq.trans h)
        simp [hpq, hq]
      · simp [hpq, ih]

theorem length_objInsert (m : List (String × β)) (k : String) (v : β) :
    (objInsert m k v).length ≤ m.length + 1 := by
  induction m with
  | nil => simp [objInsert]
  | cons p rest ih =>
    by_cases hpk : p.1 = k
    · simp [objInsert, hpk]
    · simp only [objInsert, if_neg hpk, List.length_cons]
      have := ih
      omega

theorem mem_snd_objInsert (m : List (String × β)) (k : String) (v : β) (x : β)
    (hx : x ∈ (objInsert m k v).map Prod.snd) : x = v ∨ x ∈ m.map Prod.snd := by
  induction m with
  | nil => simpa [objInsert] using hx
  | cons p rest ih =>
    by_cases hpk : p.1 = k
    · simp only [objInsert, hpk, if_pos] at hx
      rcases (by simpa using hx) with h | h
      · exact Or.inl h
      · exact Or.inr (by simp [h])
    · simp only [objInsert, hpk, if_neg, not_false_iff] at hx
      rcases (by simpa using hx) with h | h
      · exact Or.inr (by simp [h])
      · rcases ih (by simpa using h) with h1 | h1
        · exact Or.inl h1
        · exact Or.inr (by simp; right; simpa using h1)

theorem mem_fst_of_objLookup (m : List (String × β)) (k : String) (v : β)
    (h : objLookup m k = some v) : k ∈ m.map Prod.fst := by
  induction m with
  | nil => simp [objLookup] at h
  | cons p rest ih =>
    by_cases hpk : p.1 = k
    · simp [hpk]
    · simp only [objLookup, hpk, if_neg, not_false_iff] at h
      simp [ih h]

theorem objFromPairs_foldl_length (ps : List (String × β)) (acc : List (String × β)) :
    (ps.foldl (fun m p => objInsert m p.1 p.2) acc).length ≤ acc.length + ps.length := by
  induction ps generalizing acc with
  | nil => simp
  | cons p rest ih =>
    have h1 := ih (objInsert acc p.1 p.2)
    have h2 := length_objInsert acc p.1 p.2
    simp only [List.foldl_cons, List.length_cons]
    omega

theorem length_objFromPairs (ps : List (String × β)) :
    (objFromPairs ps).length ≤ ps.length := by
  simpa using objFromPairs_foldl_length ps []

theorem objFromPairs_foldl_snd (ps : List (String × β)) (acc : List (String × β)) (x : β)
    (hx : x ∈ (ps.foldl (fun m p => objInsert m p.1 p.2) acc).map Prod.snd) :
    x ∈ acc.map Prod.snd ∨ x ∈ ps.map Prod.snd := by
  induction ps generalizing acc with
  | nil => exact Or.inl (by simpa using hx)
  | cons p rest ih =>
    rcases ih (objInsert acc p.1 p.2) (by simpa using hx) with h | h
    · rcases mem_snd_objInsert acc p.1 p.2 x h with h1 | h1
      · exact Or.inr (by simp [h1])
      · exact Or.inl h1
    · exact Or.inr (by simp; right; simpa using h)

theorem mem_snd_objFromPairs (ps : List (String × β)) (x : β)
    (hx : x ∈ (objFromPairs ps).map Prod.snd) : x ∈ ps.map Prod.snd := by
  rcases objFromPairs_foldl_snd ps [] x (by simpa [objFromPairs] using hx) with h | h
  · simp at h
  · exact h

theorem find?_append (p : String × β → Bool) (l1 l2 : List (String × β)) :
    (l1 ++ l2).find? p = match l1.find? p with
      | some x => some x
      | none => l2.find? p := by
  induction l1 with
  | nil => simp
  | cons x rest ih =>
    by_cases hx : p x = true
    · simp [List.find?, hx]
    · simp only [List.cons_append, List.find?, hx]
      simpa [hx] using ih

theorem objLookup_foldl (ps : List (String × β)) (acc : List (String × β)) (k : String) :
    objLookup (ps.foldl (fun m p => objInsert m p.1 p.2) acc) k
      = match ps.reverse.find? (fun p => p.1 == k) with
        | some p => some p.2
        | none => objLookup acc k := by
  induction ps generalizing acc with
  | nil => simp
  | cons p rest ih =>
    simp only [List.foldl_cons, List.reverse_cons]
    rw [ih, find?_append]
    rcases hfind : rest.reverse.find? (fun q => q.1 == k) with _ | q
    · simp only [hfind]
      rw [objLookup_objInsert]
      by_cases hk : p.1 = k
      · simp [List.find?, hk]
      · have hb : (p.1 == k) = false := by simp [hk]
        simp [List.find?, hb, Ne.symm hk]
    · simp only [hfind]

theorem objLookup_objFromPairs (ps : List (String × β)) (k : String) :
    objLookup (objFromPairs ps) k
      = (ps.reverse.find? (fun p => p.1 == k)).map Prod.snd := by
  rw [objFromPairs, objLookup_foldl]
  rcases h : ps.reverse.find? (fun p => p.1 == k) with _ | q <;> simp [h, objLookup]

theorem objLookup_objFromPairs_isSome (ps : List (String × β)) (k : String)
    (hk : k ∈ ps.map Prod.fst) : (objLookup (objFromPairs ps) k).isSome := by
  rw [objLookup_objFromPairs]
  rcases List.mem_map.mp hk with ⟨p, hp, hfst⟩
  have hrev : p ∈ ps.reverse := List.mem_reverse.mpr hp
  rcases hfind : ps.reverse.find? (fun q => q.1 == k) with _ | q
  · have := List.find?_eq_none.mp hfind p hrev
    simp [hfst] at this
  · simp [hfind]

theorem mem_fst_objFromPairs (ps : List (String × β)) (k : String)
    (hk : k ∈ ps.map Prod.fst) : k ∈ (objFromPairs ps).map Prod.fst := by
  have h := objLookup_objFromPairs_isSome ps k hk
  rcases hv : objLookup (objFromPairs ps) k with _ | v
  · rw [hv] at h; simp at h
  · exact mem_fst_of_objLookup _ _ _ hv

end ObjLemmas

/-! ## Helper lemmas: enumeration and indexed update -/

section ListLemmas

variable {α : Type u}

theorem enumFrom_get? (l : List α) (n i : Nat) :
    (enumFrom n l).get? i = (l.get? i).map (fun a => (n + i, a)) := by
  induction l generalizing n i with
  | nil => simp [enumFrom]
  | cons a rest ih =>
    cases i with
    | zero => simp [enumFrom]
    | succ j =>
      have h := ih (n + 1) j
      have he : n + 1 + j = n + (j + 1) := by omega
      rw [he] at h
      simpa [enumFrom] using h

theorem enumList_get? (l : List α) (i : Nat) :
    (enumList l).get? i = (l.get? i).map (fun a => (i, a)) := by
  simpa using enumFrom_get? l 0 i

theorem mem_enumFrom (l : List α) (n j : Nat) (a : α)
    (h : (j, a) ∈ enumFrom n l) : n ≤ j ∧ l.get? (j - n) = some a := by
  induction l generalizing n with
  | nil => simp [enumFrom] at h
  | cons x rest ih =>
    simp only [enumFrom, List.mem_cons] at h
    rcases h with h | h
    · have h1 : j = n := congrArg Prod.fst h
      have h2 : a = x := congrArg Prod.snd h
      subst h1; subst h2
      simp
    · obtain ⟨hle, hget⟩ := ih (n + 1) h
      refine ⟨by omega, ?_⟩
      have : j - n = (j - (n + 1)) + 1 := by omega
      rw [this]
      simpa using hget

theorem enumFrom_mem_of_get? (l : List α) (n i : Nat) (a : α)
    (h : l.get? i = some a) : (n + i, a) ∈ enumFrom n l := by
  have := enumFrom_get? l n i
  rw [h] at this
  exact List.get?_mem (by simpa using this)

theorem enumFrom_fst_nodup (l : List α) (n : Nat) :
    ((enumFrom n l).map Prod.fst).Nodup := by
  induction l generalizing n with
  | nil => simp [enumFrom]
  | cons x rest ih =>
    simp only [enumFrom, List.map_cons, List.nodup_cons]
    refine ⟨?_, ih (n + 1)⟩
    intro hmem
    rcases List.mem_map.mp hmem with ⟨p, hp, hfst⟩
    have := (mem_enumFrom rest (n + 1) p.1 p.2 (by simpa using hp)).1
    omega

theorem length_setAt (l : List α) (i : Nat) (v : α) :
    (setAt l i v).length = l.length := by
  induction l generalizing i with
  | nil => simp [setAt]
  | cons x rest ih =>
    cases i with
    | zero => simp [setAt]
    | succ j => simp [setAt, ih]

theorem get?_setAt_self (l : List α) (i : Nat) (v : α) :
    (setAt l i v).get? i = (l.get? i).map (fun _ => v) := by
  induction l generalizing i with
  | nil => simp [setAt]
  | cons x rest ih =>
    cases i with
    | zero => simp [setAt]
    | succ j => simpa [setAt, List.get?_eq_getElem?] using ih j

theorem get?_setAt_ne (l : List α) (i j : Nat) (v : α) (h : i ≠ j) :
    (setAt l i v).get? j = l.get? j := by
  induction l generalizing i j with
  | nil => simp [setAt]
  | cons x rest ih =>
    cases i with
    | zero =>
      cases j with
      | zero => exact absurd rfl h
      | succ j2 => simp [setAt]
    | succ i2 =>
      cases j with
      | zero => simp [setAt]
      | succ j2 => simpa [setAt] using ih i2 j2 (by omega)

end ListLemmas

theorem count_eq_one_of_nodup_mem (l : List String) (a : String)
    (hd : l.Nodup) (hm : a ∈ l) : l.count a = 1 := by
  induction l with
  | nil => simp at hm
  | cons x rest ih =>
    rcases List.nodup_cons.mp hd with ⟨hx, hrest⟩
    rcases List.mem_cons.mp hm with h | h
    · subst h
      have hz : rest.count a = 0 := List.count_eq_zero.mpr hx
      simp [List.count_cons, hz]
    · have hax : ¬ a = x := fun he => hx (he ▸ h)
      have hc := ih hrest h
      simp [List.count_cons, hc, hax]

/-! ## Helper lemmas: address collection -/

theorem pushAddr_append (addrs : List String) (a : String) :
    ∃ t, pushAddr addrs a = addrs ++ t := by
  unfold pushAddr
  split
  · exact ⟨[a], rfl⟩
  · exact ⟨[], by simp⟩

theorem mem_pushAddr_of_mem (addrs : List String) (a b : String) (h : b ∈ addrs) :
    b ∈ pushAddr addrs a := by
  rcases pushAddr_append addrs a with ⟨t, ht⟩
  rw [ht]
  exact List.mem_append_left t h

theorem mem_pushAddr_self (addrs : List String) (a : String)
    (hi : strStartsWith a "i" = true) : a ∈ pushAddr addrs a := by
  unfold pushAddr
  split
  · simp
  · next h =>
    simp only [hi, Bool.true_and, Bool.not_eq_true, Bool.not_eq_false] at h
    simpa using h

theorem nodup_pushAddr (addrs : List String) (a : String) (hd : addrs.Nodup) :
    (pushAddr addrs a).Nodup := by
  unfold pushAddr
  split
  · next h =>
    have hna : a ∉ addrs := by
      simp only [Bool.and_eq_true, Bool.not_eq_true'] at h
      have h2 := h.2
      simpa using h2
    simp [List.nodup_append, hd, hna]
  · exact hd

theorem pushIAddrs_append (addrs keys : List String) :
    ∃ t, pushIAddrs addrs keys = addrs ++ t := by
  induction keys generalizing addrs with
  | nil => exact ⟨[], by simp [pushIAddrs]⟩
  | cons k rest ih =>
    rcases pushAddr_append addrs k with ⟨t1, ht1⟩
    rcases ih (pushAddr addrs k) with ⟨t2, ht2⟩
    exact ⟨t1 ++ t2, by simp [pushIAddrs] at ht2 ⊢; rw [ht2, ht1, List.append_assoc]⟩

theorem mem_pushIAddrs_of_mem (addrs keys : List String) (b : String) (h : b ∈ addrs) :
    b ∈ pushIAddrs addrs keys := by
  rcases pushIAddrs_append addrs keys with ⟨t, ht⟩
  rw [ht]
  exact List.mem_append_left t h

theorem mem_pushIAddrs_of_key (addrs keys : List String) (a : String)
    (hk : a ∈ keys) (hi : strStartsWith a "i" = true) : a ∈ pushIAddrs addrs keys := by
  induction keys generalizing addrs with
  | nil => simp at hk
  | cons k rest ih =>
    rcases List.mem_cons.mp hk with h | h
    · subst h
      exact mem_pushIAddrs_of_mem _ rest a (mem_pushAddr_self addrs a hi)
    · exact ih (pushAddr addrs k) h

theorem nodup_pushIAddrs (addrs keys : List String) (hd : addrs.Nodup) :
    (pushIAddrs addrs keys).Nodup := by
  induction keys generalizing addrs with
  | nil => simpa [pushIAddrs] using hd
  | cons k rest ih => exact ih (pushAddr addrs k) (nodup_pushAddr addrs k hd)

theorem firstWaveAddrs_nodup (vouts : List TOut) : (firstWaveAddrs vouts).Nodup := by
  suffices h : ∀ (acc : List String), acc.Nodup →
      (vouts.foldl
        (fun addrs vout =>
          match vout.crosschainimport with
          | some cci =>
            match cci.valuein with
            | some vin => pushIAddrs addrs (vin.map Prod.fst)
            | none => addrs
          | none => addrs)
        acc).Nodup by
    exact h [] List.nodup_nil
  induction vouts with
  | nil => intro acc hacc; simpa using hacc
  | cons vout rest ih =>
    intro acc hacc
    simp only [List.foldl_cons]
    apply ih
    rcases hc : vout.crosschainimport with _ | cci
    · simpa [hc] using hacc
    · rcases hv : cci.valuein with _ | vin
      · simpa [hc, hv] using hacc
      · simp only [hc, hv]
        exact nodup_pushIAddrs acc _ hacc

/-! ## Helper lemmas: resolution waves -/

theorem resolveList_fst (g : String → IdResult) (cache : Cache) (addrs : List String) :
    (resolveList g cache addrs).1.map Prod.fst = addrs := by
  induction addrs generalizing cache with
  | nil => simp [resolveList]
  | cons a rest ih => simp [resolveList, ih]

/-! ## Helper lemmas: post-decode expansion -/

theorem processVoutAddrs_pres (v : TOut) (addrs : List String) (it : DecodeItem) :
    (processVoutAddrs v addrs it).1.value = v.value ∧
    (processVoutAddrs v addrs it).1.n = v.n ∧
    (processVoutAddrs v addrs it).1.crosschainimport = v.crosschainimport := by
  unfold processVoutAddrs stepFeepool stepAccnot stepOpreturn
  repeat' split
  all_goals simp

theorem processVoutAddrs_decoded_none (v : TOut) (addrs : List String) (it : DecodeItem)
    (h : it.decoded = none) : processVoutAddrs v addrs it = (v, addrs) := by
  simp [processVoutAddrs, stepFeepool, stepAccnot, stepOpreturn, feepoolOfDecoded,
    accnotOfDecoded, p2shOfDecoded, h]

theorem stepFeepool_addrs_append (v : TOut) (addrs : List String) (it : DecodeItem) :
    ∃ t, (stepFeepool v addrs it).2 = addrs ++ t := by
  unfold stepFeepool
  split
  · rcases h : feepoolOfDecoded it.decoded with _ | cv
    · exact ⟨[], by simp⟩
    · rcases pushIAddrs_append addrs (cv.map Prod.fst) with ⟨t, ht⟩
      exact ⟨t, by simp [ht]⟩
  · exact ⟨[], by simp⟩

theorem stepAccnot_addrs_append (v : TOut) (addrs : List String) (it : DecodeItem) :
    ∃ t, (stepAccnot v addrs it).2 = addrs ++ t := by
  unfold stepAccnot
  split
  · rcases h : accnotOfDecoded it.decoded with _ | an
    · exact ⟨[], by simp⟩
    · rcases hc : an.currencyid with _ | c
      · exact ⟨[], by simp [hc]⟩
      · by_cases he : c ≠ ""
        · rcases pushAddr_append addrs c with ⟨t, ht⟩
          exact ⟨t, by simp [hc, he, ht]⟩
        · exact ⟨[], by simp [hc, he]⟩
  · exact ⟨[], by simp⟩

theorem stepFeepool_addrs_nodup (v : TOut) (addrs : List String) (it : DecodeItem)
    (hd : addrs.Nodup) : (stepFeepool v addrs it).2.Nodup := by
  unfold stepFeepool
  split
  · rcases h : feepoolOfDecoded it.decoded with _ | cv
    · simpa using hd
    · simpa using nodup_pushIAddrs addrs (cv.map Prod.fst) hd
  · simpa using hd

theorem stepAccnot_addrs_nodup (v : TOut) (addrs : List String) (it : DecodeItem)
    (hd : addrs.Nodup) : (stepAccnot v addrs it).2.Nodup := by
  unfold stepAccnot
  split
  · rcases h : accnotOfDecoded it.decoded with _ | an
    · simpa using hd
    · rcases hc : an.currencyid with _ | c
      · simpa [hc] using hd
      · by_cases he : c ≠ ""
        · simpa [hc, he] using nodup_pushAddr addrs c hd
        · simpa [hc, he] using hd
  · simpa using hd

theorem processVoutAddrs_addrs_append (v : TOut) (addrs : List String) (it : DecodeItem) :
    ∃ t, (processVoutAddrs v addrs it).2 = addrs ++ t := by
  have h0 : (processVoutAddrs v addrs it).2
      = (stepAccnot (stepFeepool v addrs it).1 (stepFeepool v addrs it).2 it).2 := rfl
  rcases stepAccnot_addrs_append (stepFeepool v addrs it).1 (stepFeepool v addrs it).2 it
    with ⟨t2, h2⟩
  rcases stepFeepool_addrs_append v addrs it with ⟨t1, h1⟩
  exact ⟨t1 ++ t2, by rw [h0, h2, h1, List.append_assoc]⟩

theorem processVoutAddrs_addrs_nodup (v : TOut) (addrs : List String) (it : DecodeItem)
    (hd : addrs.Nodup) : (processVoutAddrs v addrs it).2.Nodup := by
  unfold processVoutAddrs
  exact stepAccnot_addrs_nodup _ _ it (stepFeepool_addrs_nodup v addrs it hd)

theorem processVoutAddrs_feepool (v : TOut) (addrs : List String) (it : DecodeItem)
    (cv : List (String × Int)) (htype : it.type = "feepool")
    (hcv : feepoolOfDecoded it.decoded = some cv) :
    (processVoutAddrs v addrs it).1
        = { v with feepool := some { currencyvalues := cv, currencyvaluesFriendly := none } } ∧
      (processVoutAddrs v addrs it).2 = pushIAddrs addrs (cv.map Prod.fst) := by
  unfold processVoutAddrs stepFeepool stepAccnot stepOpreturn
  simp [htype, hcv]

theorem applyDecodedItem_at_idx (st : List TOut × List String) (it : DecodeItem) (v : TOut)
    (hv : st.1.get? it.idx = some v) :
    (applyDecodedItem st it).1.get? it.idx = some (processVoutAddrs v st.2 it).1 ∧
      (applyDecodedItem st it).2 = (processVoutAddrs v st.2 it).2 := by
  unfold applyDecodedItem
  rw [hv]
  refine ⟨?_, rfl⟩
  rw [get?_setAt_self, hv]
  rfl

theorem applyDecodedItem_get?_ne (st : List TOut × List String) (it : DecodeItem) (j : Nat)
    (h : it.idx ≠ j) : (applyDecodedItem st it).1.get? j = st.1.get? j := by
  unfold applyDecodedItem
  rcases hv : st.1.get? it.idx with _ | v
  · rfl
  · exact get?_setAt_ne st.1 it.idx j _ h

theorem applyDecodedItem_addrs_append (st : List TOut × List String) (it : DecodeItem) :
    ∃ t, (applyDecodedItem st it).2 = st.2 ++ t := by
  unfold applyDecodedItem
  rcases hv : st.1.get? it.idx with _ | v
  · exact ⟨[], by simp⟩
  · exact processVoutAddrs_addrs_append v st.2 it

theorem applyDecodedItem_addrs_nodup (st : List TOut × List String) (it : DecodeItem)
    (hd : st.2.Nodup) : (applyDecodedItem st it).2.Nodup := by
  unfold applyDecodedItem
  rcases hv : st.1.get? it.idx with _ | v
  · simpa using hd
  · exact processVoutAddrs_addrs_nodup v st.2 it hd

theorem foldl_applyDecodedItem_addrs_append (items : List DecodeItem)
    (st : List TOut × List String) :
    ∃ t, (items.foldl applyDecodedItem st).2 = st.2 ++ t := by
  induction items generalizing st with
  | nil => exact ⟨[], by simp⟩
  | cons it rest ih =>
    rcases applyDecodedItem_addrs_append st it with ⟨t1, h1⟩
    rcases ih (applyDecodedItem st it) with ⟨t2, h2⟩
    exact ⟨t1 ++ t2, by simp only [List.foldl_cons]; rw [h2, h1, List.append_assoc]⟩

theorem foldl_applyDecodedItem_addrs_nodup (items : List DecodeItem)
    (st : List TOut × List String) (hd : st.2.Nodup) :
    (items.foldl applyDecodedItem st).2.Nodup := by
  induction items generalizing st with
  | nil => simpa using hd
  | cons it rest ih =>
    exact ih (applyDecodedItem st it) (applyDecodedItem_addrs_nodup st it hd)

theorem foldl_applyDecodedItem_mem_addrs (items : List DecodeItem)
    (st : List TOut × List String) (b : String) (h : b ∈ st.2) :
    b ∈ (items.foldl applyDecodedItem st).2 := by
  rcases foldl_applyDecodedItem_addrs_append items st with ⟨t, ht⟩
  rw [ht]
  exact List.mem_append_left t h

theorem foldl_applyDecodedItem_get?_untouched (items : List DecodeItem)
    (st : List TOut × List String) (j : Nat) (h : ∀ it ∈ items, it.idx ≠ j) :
    (items.foldl applyDecodedItem st).1.get? j = st.1.get? j := by
  induction items generalizing st with
  | nil => simp
  | cons it rest ih =>
    simp only [List.foldl_cons]
    rw [ih (applyDecodedItem st it) (fun i hi => h i (List.mem_cons_of_mem it hi))]
    exact applyDecodedItem_get?_ne st it j (h it (List.mem_cons_self it rest))

theorem foldl_applyDecodedItem_get?_none_decoded (items : List DecodeItem)
    (st : List TOut × List String) (j : Nat) (v : TOut)
    (h : ∀ it ∈ items, it.idx = j → it.decoded = none) (hv : st.1.get? j = some v) :
    (items.foldl applyDecodedItem st).1.get? j = some v := by
  induction items generalizing st with
  | nil => simpa using hv
  | cons it rest ih =>
    simp only [List.foldl_cons]
    apply ih (applyDecodedItem st it) (fun i hi => h i (List.mem_cons_of_mem it hi))
    by_cases hj : it.idx = j
    · have hnone := h it (List.mem_cons_self it rest) hj
      subst hj
      have := applyDecodedItem_at_idx st it v hv
      rw [this.1, processVoutAddrs_decoded_none v st.2 it hnone]
    · rw [applyDecodedItem_get?_ne st it j hj]
      exact hv

theorem foldl_applyDecodedItem_pres (items : List DecodeItem)
    (st : List TOut × List String) (j : Nat) (v : TOut) (hv : st.1.get? j = some v) :
    ∃ v2, (items.foldl applyDecodedItem st).1.get? j = some v2 ∧
      v2.value = v.value ∧ v2.n = v.n ∧ v2.crosschainimport = v.crosschainimport := by
  induction items generalizing st v with
  | nil => exact ⟨v, by simpa using hv, rfl, rfl, rfl⟩
  | cons it rest ih =>
    simp only [List.foldl_cons]
    by_cases hj : it.idx = j
    · subst hj
      obtain ⟨h1, _⟩ := applyDecodedItem_at_idx st it v hv
      obtain ⟨w, hw, p1, p2, p3⟩ := ih (applyDecodedItem st it) _ h1
      obtain ⟨q1, q2, q3⟩ := processVoutAddrs_pres v st.2 it
      exact ⟨w, hw, p1.trans q1, p2.trans q2, p3.trans q3⟩
    · apply ih (applyDecodedItem st it) v
      rw [applyDecodedItem_get?_ne st it j hj]
      exact hv

theorem decodeItemsOf_idx_nodup (env : Env) (vouts : List TOut) :
    ((decodeItemsOf env vouts).map DecodeItem.idx).Nodup := by
  unfold decodeItemsOf
  rw [List.map_map]
  have heq : ((enumList vouts).filter (fun p => p.2.needsScriptDecode)).map
      (DecodeItem.idx ∘ fun p =>
        ({ idx := p.1, decoded := env.decodeScript (p.2.scriptHex.getD ""),
           type := p.2.scriptDecodeType.getD "" } : DecodeItem))
      = ((enumList vouts).filter (fun p => p.2.needsScriptDecode)).map Prod.fst := by
    simp [Function.comp]
  rw [heq]
  have hsub : List.Sublist ((enumList vouts).filter (fun p => p.2.needsScriptDecode))
      (enumList vouts) :=
    List.filter_sublist _
  exact (enumFrom_fst_nodup vouts 0).sublist (hsub.map Prod.fst)

theorem decodeItemsOf_mem (env : Env) (vouts : List TOut) (idx : Nat) (v : TOut)
    (hv : vouts.get? idx = some v) (hflag : v.needsScriptDecode = true) :
    ({ idx := idx, decoded := env.decodeScript (v.scriptHex.getD ""),
       type := v.scriptDecodeType.getD "" } : DecodeItem) ∈ decodeItemsOf env vouts := by
  unfold decodeItemsOf
  apply List.mem_map.mpr
  refine ⟨(idx, v), List.mem_filter.mpr ⟨?_, by simpa using hflag⟩, rfl⟩
  simpa [enumList] using enumFrom_mem_of_get? vouts 0 idx v hv

theorem decodeItemsOf_determined (env : Env) (vouts : List TOut) (it : DecodeItem)
    (v : TOut) (hit : it ∈ decodeItemsOf env vouts) (hv : vouts.get? it.idx = some v) :
    it.decoded = env.decodeScript (v.scriptHex.getD "") ∧
      it.type = v.scriptDecodeType.getD "" := by
  unfold decodeItemsOf at hit
  rcases List.mem_map.mp hit with ⟨p, hp, rfl⟩
  have hpe : p ∈ enumList vouts := (List.mem_filter.mp hp).1
  have hm := mem_enumFrom vouts 0 p.1 p.2 (by simpa [enumList] using hpe)
  have hget : vouts.get? p.1 = some p.2 := by simpa using hm.2
  have : v = p.2 := by
    have := hv.symm.trans hget
    simpa using this
  subst this
  exact ⟨rfl, rfl⟩

/-! ## Helper lemmas: merge pass -/

theorem mergeCci_cci (nm : List (String × String)) (v : TOut) :
    (mergeCci nm v).crosschainimport
      = match v.crosschainimport with
        | some cci =>
          match cci.valuein with
          | some vin => some { cci with valueinFriendly := some (buildFriendly nm vin) }
          | none => some cci
        | none => none := by
  unfold mergeCci
  repeat' split
  all_goals simp_all

theorem mergeCci_keeps (nm : List (String × String)) (v : TOut) :
    (mergeCci nm v).value = v.value ∧ (mergeCci nm v).n = v.n ∧
      (mergeCci nm v).feepool = v.feepool ∧
      (mergeCci nm v).acceptednotarization = v.acceptednotarization ∧
      (mergeCci nm v).p2shAddress = v.p2shAddress := by
  unfold mergeCci
  repeat' split
  all_goals simp

theorem mergeFeepool_feepool (nm : List (String × String)) (v : TOut) :
    (mergeFeepool nm v).feepool
      = match v.feepool with
        | some fp =>
          some { fp with currencyvaluesFriendly := some (buildFriendly nm fp.currencyvalues) }
        | none => none := by
  unfold mergeFeepool
  repeat' split
  all_goals simp_all

theorem mergeFeepool_keeps (nm : List (String × String)) (v : TOut) :
    (mergeFeepool nm v).value = v.value ∧ (mergeFeepool nm v).n = v.n ∧
      (mergeFeepool nm v).crosschainimport = v.crosschainimport ∧
      (mergeFeepool nm v).acceptednotarization = v.acceptednotarization ∧
      (mergeFeepool nm v).p2shAddress = v.p2shAddress := by
  unfold mergeFeepool
  repeat' split
  all_goals simp

theorem mergeAccnot_accnot (nm : List (String × String)) (v : TOut) :
    (mergeAccnot nm v).acceptednotarization
      = match v.acceptednotarization with
        | some an =>
          match an.currencyid with
          | some c =>
            if c ≠ "" then
              some { an with currencyNameFriendly := some (friendlyKey nm c) }
            else some an
          | none => some an
        | none => none := by
  unfold mergeAccnot
  repeat' split
  all_goals simp_all

theorem mergeAccnot_keeps (nm : List (String × String)) (v : TOut) :
    (mergeAccnot nm v).value = v.value ∧ (mergeAccnot nm v).n = v.n ∧
      (mergeAccnot nm v).crosschainimport = v.crosschainimport ∧
      (mergeAccnot nm v).feepool = v.feepool ∧
      (mergeAccnot nm v).p2shAddress = v.p2shAddress := by
  unfold mergeAccnot
  repeat' split
  all_goals simp

theorem applyFriendly_value (nm : List (String × String)) (v : TOut) :
    (applyFriendly nm v).value = v.value := by
  unfold applyFriendly
  rw [(mergeAccnot_keeps nm _).1, (mergeFeepool_keeps nm _).1, (mergeCci_keeps nm v).1]

theorem applyFriendly_n (nm : List (String × String)) (v : TOut) :
    (applyFriendly nm v).n = v.n := by
  unfold applyFriendly
  rw [(mergeAccnot_keeps nm _).2.1, (mergeFeepool_keeps nm _).2.1, (mergeCci_keeps nm v).2.1]

theorem applyFriendly_p2sh (nm : List (String × String)) (v : TOut) :
    (applyFriendly nm v).p2shAddress = v.p2shAddress := by
  unfold applyFriendly
  rw [(mergeAccnot_keeps nm _).2.2.2.2, (mergeFeepool_keeps nm _).2.2.2.2,
    (mergeCci_keeps nm v).2.2.2.2]

theorem applyFriendly_cci (nm : List (String × String)) (v : TOut) :
    (applyFriendly nm v).crosschainimport
      = match v.crosschainimport with
        | some cci =>
          match cci.valuein with
          | some vin => some { cci with valueinFriendly := some (buildFriendly nm vin) }
          | none => some cci
        | none => none := by
  unfold applyFriendly
  rw [(mergeAccnot_keeps nm _).2.2.1, (mergeFeepool_keeps nm _).2.2.1, mergeCci_cci nm v]

theorem applyFriendly_feepool (nm : List (String × String)) (v : TOut) :
    (applyFriendly nm v).feepool
      = match v.feepool with
        | some fp =>
          some { fp with currencyvaluesFriendly := some (buildFriendly nm fp.currencyvalues) }
        | none => none := by
  unfold applyFriendly
  rw [(mergeAccnot_keeps nm _).2.2.2.1, mergeFeepool_feepool nm _, (mergeCci_keeps nm v).2.2.1]

theorem applyFriendly_accnot (nm : List (String × String)) (v : TOut) :
    (applyFriendly nm v).acceptednotarization
      = match v.acceptednotarization with
        | some an =>
          match an.currencyid with
          | some c =>
            if c ≠ "" then
              some { an with currencyNameFriendly := some (friendlyKey nm c) }
            else some an
          | none => some an
        | none => none := by
  unfold applyFriendly
  rw [mergeAccnot_accnot nm _, (mergeFeepool_keeps nm _).2.2.2.1, (mergeCci_keeps nm v).2.2.2.1]

theorem buildFriendly_length (nm : List (String × String)) (m : List (String × Int)) :
    (buildFriendly nm m).length ≤ m.length := by
  have := length_objFromPairs (m.map (fun p => (friendlyKey nm p.1, p.2)))
  simpa [buildFriendly] using this

theorem buildFriendly_snd (nm : List (String × String)) (m : List (String × Int)) (x : Int)
    (hx : x ∈ (buildFriendly nm m).map Prod.snd) : x ∈ m.map Prod.snd := by
  have h := mem_snd_objFromPairs (m.map (fun p => (friendlyKey nm p.1, p.2))) x
    (by simpa [buildFriendly] using hx)
  simpa [List.map_map, Function.comp] using h

theorem buildFriendly_lookup (nm : List (String × String)) (m : List (String × Int))
    (k : String) :
    objLookup (buildFriendly nm m) k
      = ((m.map (fun p => (friendlyKey nm p.1, p.2))).reverse.find?
          (fun p => p.1 == k)).map Prod.snd :=
  objLookup_objFromPairs _ k

theorem buildFriendly_key_mem (nm : List (String × String)) (m : List (String × Int))
    (a : String) (ha : a ∈ m.map Prod.fst) :
    friendlyKey nm a ∈ (buildFriendly nm m).map Prod.fst := by
  apply mem_fst_objFromPairs
  rcases List.mem_map.mp ha with ⟨p, hp, rfl⟩
  rw [List.map_map]
  exact List.mem_map.mpr ⟨p, hp, rfl⟩

theorem resolvedPairs_fst (env : Env) (cache : Cache) (vouts : List TOut) :
    (resolvedPairs env cache vouts).map Prod.fst
      = firstWaveAddrs vouts ++ secondWaveAddrs env vouts := by
  unfold resolvedPairs
  simp [resolveList_fst]

theorem nameMappingOf_isSome (env : Env) (cache : Cache) (vouts : List TOut) (a : String)
    (ha : a ∈ firstWaveAddrs vouts ++ secondWaveAddrs env vouts) :
    (objLookup (nameMappingOf env cache vouts) a).isSome := by
  apply objLookup_objFromPairs_isSome
  rw [resolvedPairs_fst]
  exact ha

/-! ## Helper lemmas: the top-level transform -/

theorem transform_inv (env : Env) (opts : TransformOptions) (cache : Cache)
    (tx : RawTransaction) (t : TransformedTx)
    (ht : transformTransaction env opts cache tx = some t) :
    ∃ vin, mkVinOpt opts tx = some vin ∧ t = assembleTransform env opts cache tx vin := by
  unfold transformTransaction at ht
  rcases hm : mkVinOpt opts tx with _ | vin
  · rw [hm] at ht; simp at ht
  · rw [hm] at ht
    simp only [Option.map_some'] at ht
    exact ⟨vin, rfl, (Option.some.inj ht).symm⟩

theorem mkVinOpt_isSome (opts : TransformOptions) (tx : RawTransaction)
    (hok : tx.coinbase = false ∨ tx.inputs ≠ []) : (mkVinOpt opts tx).isSome := by
  unfold mkVinOpt
  rcases hcb : tx.coinbase with _ | _
  · simp
  · rcases hin : tx.inputs with _ | ⟨i, rest⟩
    · rcases hok with h | h
      · rw [hcb] at h; simp at h
      · exact absurd hin h
    · simp

theorem assembleTransform_vout (env : Env) (opts : TransformOptions) (cache : Cache)
    (tx : RawTransaction) (vin : List TVinEntry) :
    (assembleTransform env opts cache tx vin).vout = finalVouts env opts cache tx := rfl

theorem initialVouts_get? (env : Env) (opts : TransformOptions) (tx : RawTransaction)
    (idx : Nat) (o : RawOutput) (ho : tx.outputs.get? idx = some o) :
    (initialVouts env opts tx).get? idx = some (transformOutput env opts o idx) := by
  unfold initialVouts
  rw [List.get?_map, enumList_get?, ho]
  rfl

theorem initialVouts_get?_inv (env : Env) (opts : TransformOptions) (tx : RawTransaction)
    (idx : Nat) (v : TOut) (hv : (initialVouts env opts tx).get? idx = some v) :
    ∃ o, tx.outputs.get? idx = some o ∧ v = transformOutput env opts o idx := by
  unfold initialVouts at hv
  rw [List.get?_map, enumList_get?] at hv
  rcases ho : tx.outputs.get? idx with _ | o
  · rw [ho] at hv; simp at hv
  · rw [ho] at hv
    simp only [Option.map_some'] at hv
    exact ⟨o, rfl, (Option.some.inj hv).symm⟩

theorem transformOutput_enrich_none (env : Env) (opts : TransformOptions) (o : RawOutput)
    (i : Nat) :
    (transformOutput env opts o i).feepool = none ∧
      (transformOutput env opts o i).acceptednotarization = none ∧
      (transformOutput env opts o i).p2shAddress = none :=
  ⟨rfl, rfl, rfl⟩

theorem transformOutput_cci (env : Env) (opts : TransformOptions) (o : RawOutput) (i : Nat) :
    (transformOutput env opts o i).crosschainimport
      = o.crosschainimport.map (fun c => ⟨c.valuein, none⟩) := rfl

theorem transformOutput_value (env : Env) (opts : TransformOptions) (o : RawOutput) (i : Nat) :
    (transformOutput env opts o i).value = toFixed8 o.satoshis := rfl

theorem nodup_middle (l1 : List DecodeItem) (x : DecodeItem) (l2 : List DecodeItem)
    (h : ((l1 ++ x :: l2).map DecodeItem.idx).Nodup) :
    (∀ y ∈ l1, y.idx ≠ x.idx) ∧ (∀ y ∈ l2, y.idx ≠ x.idx) := by
  rw [List.map_append, List.map_cons] at h
  rw [List.nodup_append] at h
  obtain ⟨h1, h2, hdisj⟩ := h
  constructor
  · intro y hy he
    exact hdisj (List.mem_map_of_mem DecodeItem.idx hy) (by simp [he])
  · intro y hy he
    have := (List.nodup_cons.mp h2).1
    exact this (by rw [← he]; exact List.mem_map_of_mem DecodeItem.idx hy)

/-! ## Concrete fixtures (sample oracles and raw records) -/

/-- A raw output with every optional field absent. -/
def baseRawOutput : RawOutput :=
  { satoshis := 0, script := none, scriptAsm := none, address := none, addresses := none,
    spentTxId := none, spentIndex := none, spentHeight := none, identityprimary := none,
    currencydefinition := none, script_reserve_balance := none, finalizeNotarization := none,
    crosschainimport := none, crosschainexport := none, identitycommitment := none,
    reservetransfer := none, pbaasNotarization := none }

/-- A plain confirmed raw transaction skeleton. -/
def baseRawTx : RawTransaction :=
  { hash := "deadbeef", version := 1, locktime := 0, coinbase := false, inputs := [],
    outputs := [], joinSplits := [], blockHash := some "bh", height := 100,
    blockTimestamp := some 1600000000, outputSatoshis := 150, inputSatoshis := 200,
    feeSatoshis := 50, hex := "aabb", fOverwintered := false, nVersionGroupId := none,
    nExpiryHeight := none, valueBalance := none, spendDescs := none, outputDescs := none,
    bindingSig := none }

/-- A sample identity service: `iAAA` has friendly name `alice`, `iCCC`
resolves through suffix stripping to `carol`, `iD1` and `iD2` collide on
`dup`, `iEMPTY` has the pathological friendly name `@` that strips to the
empty string, and every other address errors. -/
def sampleIdOracle : String → IdResult := fun a =>
  if a = "iAAA" then IdResult.ok (some ⟨some ⟨some "alice"⟩, none⟩)
  else if a = "iCCC" then IdResult.ok (some ⟨some ⟨some "carol.VRSC@"⟩, none⟩)
  else if a = "iD1" then IdResult.ok (some ⟨some ⟨some "dup"⟩, none⟩)
  else if a = "iD2" then IdResult.ok (some ⟨some ⟨some "dup"⟩, none⟩)
  else if a = "iEMPTY" then IdResult.ok (some ⟨some ⟨some "@"⟩, none⟩)
  else IdResult.rpcError

/-- A decoded fee-pool script revealing the identity address `iCCC`. -/
def sampleDecoded : DecodedScript :=
  { feepool := some { currencyvalues := some [("iCCC", 7)] }
    acceptednotarization := none
    p2sh := none }

/-- A decoded fee-pool script revealing `iEMPTY`, whose friendly name
derives to the empty string. -/
def emptyNameDecoded : DecodedScript :=
  { feepool := some { currencyvalues := some [("iEMPTY", 9)] }
    acceptednotarization := none
    p2sh := none }

/-- The sample environment: scripts `fphex` and `emptyhex` decode, every
other script errors; the registry knows the fee-pool protocol address. -/
def sampleEnv : Env :=
  { getIdentity := sampleIdOracle
    decodeScript := fun h =>
      if h = "fphex" then some sampleDecoded
      else if h = "emptyhex" then some emptyNameDecoded
      else none
    registry := fun a =>
      if a = feePoolAddress then some ⟨"Fee Pool", "fees", "#fff", "icon"⟩ else none
    chainHeight := 105
    nowSeconds := 1700000000
    addrType := fun _ => "pubkeyhash" }

/-- An output carrying a `crosschainimport.valuein` over `iAAA`/`iBBB`. -/
def importOutput : RawOutput :=
  { baseRawOutput with
    satoshis := 123456789
    crosschainimport := some { valuein := some [("iAAA", 100), ("iBBB", 50)] } }

/-- A fee-pool protocol output whose script decodes successfully. -/
def fpOutput : RawOutput :=
  { baseRawOutput with
    address := some feePoolAddress
    script := some "fphex" }

/-- An anonymous OP_RETURN output whose script decode errors. -/
def opOutput : RawOutput :=
  { baseRawOutput with
    script := some "ophex"
    scriptAsm := some "OP_RETURN deadbeef" }

/-- A fee-pool protocol output whose decode reveals only `iEMPTY`. -/
def emptyFpOutput : RawOutput :=
  { baseRawOutput with
    address := some feePoolAddress
    script := some "emptyhex" }

/-- An output whose `valuein` addresses both resolve to the name `dup`. -/
def collapseOutput : RawOutput :=
  { baseRawOutput with
    crosschainimport := some { valuein := some [("iD1", 1), ("iD2", 2)] } }

/-- An output whose `valuein` address resolves to the empty name. -/
def emptyImportOutput : RawOutput :=
  { baseRawOutput with
    crosschainimport := some { valuein := some [("iEMPTY", 5)] } }

/-- A sample raw input. -/
def sampleRawInput : RawInput :=
  { prevTxId := "prev", outputIndex := 0, sequence := 5, script := "sc",
    scriptAsm := some "sa", address := some "Raddr", addresses := none, satoshis := 11 }

/-- The two-wave sample transaction: a cross-chain import output and a
fee-pool output whose decode reveals a new identity address. -/
def importTx : RawTransaction :=
  { baseRawTx with
    inputs := [sampleRawInput]
    outputs := [importOutput, fpOutput]
    outputSatoshis := 100000000 }

/-- A transaction whose single flagged output fails to decode. -/
def failTx : RawTransaction :=
  { baseRawTx with outputs := [opOutput] }

/-- A transaction whose fee-pool decode reveals only `iEMPTY`. -/
def emptyNameTx : RawTransaction :=
  { baseRawTx with outputs := [emptyFpOutput] }

/-- A transaction whose import addresses collide on one friendly name. -/
def collapseTx : RawTransaction :=
  { baseRawTx with outputs := [collapseOutput] }

/-- A transaction whose import address resolves to the empty name. -/
def emptyImportTx : RawTransaction :=
  { baseRawTx with outputs := [emptyImportOutput] }

/-- A coinbase transaction with two raw inputs. -/
def coinbaseTx : RawTransaction :=
  { baseRawTx with
    coinbase := true
    inputs := [sampleRawInput, { sampleRawInput with prevTxId := "prev2", script := "cb2" }] }

/-- An unconfirmed transaction (height -1). -/
def negHeightTx : RawTransaction :=
  { baseRawTx with height := -1 }

/-- An identity service whose friendly names all derive to the empty
string (`@` strips to `""`). -/
def atSignOracle : String → IdResult := fun _ =>
  IdResult.ok (some ⟨some ⟨some "@"⟩, none⟩)

/-! ## Claim C1 -/

/-- C1 counterexample: the claim as stated is false. With a lookup that
succeeds and derives the friendly name `""` (friendly name `@`, one
trailing `@` stripped), the first resolution caches `""`; since the
empty string is falsy, the cached entry fails the truthy cache check and
the second resolution of the same address invokes the identity lookup
service again: it performs I/O even though the first lookup succeeded. -/
theorem C1_counterexample :
    (resolve atSignOracle [] "iX").didLookup = true ∧
      atSignOracle "iX" = IdResult.ok (some ⟨some ⟨some "@"⟩, none⟩) ∧
      (resolve atSignOracle [] "iX").cache = [("iX", "")] ∧
      ¬ (resolve atSignOracle (resolve atSignOracle [] "iX").cache "iX").didLookup = false := by
  decide

/-- C1 (amended): if an identity address is resolved twice, the first
resolution invoked the lookup service, that lookup succeeded, and the
derived friendly name is non-empty (truthy), then the second resolution
performs no I/O (it does not call the identity lookup service) and
returns the identical friendly name. -/
theorem C1_cache_idempotent (g : String → IdResult) (cache : Cache) (a : String)
    (hio : (resolve g cache a).didLookup = true)
    (hok : ∃ idrec, g a = IdResult.ok idrec)
    (hname : (resolve g cache a).name ≠ "") :
    (resolve g (resolve g cache a).cache a).didLookup = false ∧
      (resolve g (resolve g cache a).cache a).name = (resolve g cache a).name := by
  obtain ⟨idrec, hid⟩ := hok
  by_cases hc : jsTruthyStr (objLookup cache a) = true
  · simp [resolve, hc] at hio
  · have hc2 : jsTruthyStr (objLookup cache a) = false := by
      cases h : jsTruthyStr (objLookup cache a)
      · rfl
      · exact absurd h hc
    have hr : resolve g cache a
        = { name := deriveFriendlyName a idrec
            cache := objInsert cache a (deriveFriendlyName a idrec)
            didLookup := true } := by
      simp [resolve, hc2, hid]
    have hname2 : deriveFriendlyName a idrec ≠ "" := by
      rw [hr] at hname
      exact hname
    have hl : objLookup (objInsert cache a (deriveFriendlyName a idrec)) a
        = some (deriveFriendlyName a idrec) := by
      rw [objLookup_objInsert]
      simp
    have ht : jsTruthyStr (some (deriveFriendlyName a idrec)) = true := by
      simpa [jsTruthyStr] using hname2
    rw [hr]
    simp [resolve, hl, ht]

/-- C1 witness: the amended theorem at the sample oracle and address
`iAAA` (friendly name `alice`). -/
theorem C1_cache_idempotent_witness :
    (resolve sampleIdOracle (resolve sampleIdOracle [] "iAAA").cache "iAAA").didLookup
        = false ∧
      (resolve sampleIdOracle (resolve sampleIdOracle [] "iAAA").cache "iAAA").name
        = (resolve sampleIdOracle [] "iAAA").name :=
  C1_cache_idempotent sampleIdOracle [] "iAAA" (by decide)
    ⟨some ⟨some ⟨some "alice"⟩, none⟩, by decide⟩ (by decide)

/-! ## Claim C3 -/

/-- C3: a truthy `identityinfo.friendlyname` is stripped of exactly one
trailing `@` and then exactly one trailing `.VRSC` (so `bob.VRSC@`,
`bob@` and `bob.VRSC` all yield `bob`); a truthy fallback `identity.name`
is returned verbatim with no suffix stripping; when neither field is
truthy (or the identity object is null) the address itself is returned. -/
theorem C3_suffix_stripping :
    (∀ (a : String) (idrec : IdentityRec) (fn : String),
      idrec.identityinfo.bind IdentityInfo.friendlyname = some fn → fn ≠ "" →
      deriveFriendlyName a (some idrec) = stripVRSC (stripAtSign fn)) ∧
    stripVRSC (stripAtSign "bob.VRSC@") = "bob" ∧
    stripVRSC (stripAtSign "bob@") = "bob" ∧
    stripVRSC (stripAtSign "bob.VRSC") = "bob" ∧
    (∀ (a : String) (idrec : IdentityRec) (nm2 : String),
      jsTruthyStr (idrec.identityinfo.bind IdentityInfo.friendlyname) = false →
      idrec.identity = some ⟨some nm2⟩ → nm2 ≠ "" →
      deriveFriendlyName a (some idrec) = nm2) ∧
    (∀ (a : String) (idrec : IdentityRec),
      jsTruthyStr (idrec.identityinfo.bind IdentityInfo.friendlyname) = false →
      jsTruthyStr (idrec.identity.bind IdentityInner.name) = false →
      deriveFriendlyName a (some idrec) = a) ∧
    (∀ a : String, deriveFriendlyName a none = a) := by
  refine ⟨?_, by decide, by decide, by decide, ?_, ?_, fun a => rfl⟩
  · intro a idrec fn hfn hne
    rcases idrec with ⟨oinfo, oid⟩
    rcases oinfo with _ | info
    · simp at hfn
    · rcases info with ⟨ofn⟩
      simp only [Option.bind] at hfn
      subst hfn
      simp [deriveFriendlyName, hne]
  · intro a idrec nm2 hfalse hid hne
    rcases idrec with ⟨oinfo, oid⟩
    simp only at hid
    subst hid
    rcases oinfo with _ | info
    · simp [deriveFriendlyName, fallbackName, hne]
    · rcases info with ⟨ofn⟩
      rcases ofn with _ | s
      · simp [deriveFriendlyName, fallbackName, hne]
      · simp only [Option.bind, jsTruthyStr] at hfalse
        have hs : s = "" := by simpa using hfalse
        subst hs
        simp [deriveFriendlyName, fallbackName, hne]
  · intro a idrec hfalse1 hfalse2
    rcases idrec with ⟨oinfo, oid⟩
    have hfall : fallbackName a ⟨oinfo, oid⟩ = a := by
      rcases oid with _ | inner
      · simp [fallbackName]
      · rcases inner with ⟨onm⟩
        rcases onm with _ | s
        · simp [fallbackName]
        · simp only [Option.bind, jsTruthyStr] at hfalse2
          have hs : s = "" := by simpa using hfalse2
          subst hs
          simp [fallbackName]
    rcases oinfo with _ | info
    · simpa [deriveFriendlyName] using hfall
    · rcases info with ⟨ofn⟩
      rcases ofn with _ | s
      · simpa [deriveFriendlyName] using hfall
      · simp only [Option.bind, jsTruthyStr] at hfalse1
        have hs : s = "" := by simpa using hfalse1
        subst hs
        simpa [deriveFriendlyName] using hfall

/-- C3 witness: the stripping branch, the fallback branch and the
neither-field branch at concrete identity records. -/
theorem C3_suffix_stripping_witness :
    deriveFriendlyName "iX" (some ⟨some ⟨some "bob.VRSC@"⟩, none⟩) = "bob" ∧
      deriveFriendlyName "iX" (some ⟨none, some ⟨some "carol.VRSC@"⟩⟩) = "carol.VRSC@" ∧
      deriveFriendlyName "iX" (some ⟨none, none⟩) = "iX" := by
  have h := C3_suffix_stripping
  refine ⟨?_, ?_, ?_⟩
  · exact (h.1 "iX" ⟨some ⟨some "bob.VRSC@"⟩, none⟩ "bob.VRSC@" (by decide)
      (by decide)).trans (by decide)
  · exact h.2.2.2.2.1 "iX" ⟨none, some ⟨some "carol.VRSC@"⟩⟩ "carol.VRSC@" (by decide) rfl
      (by decide)
  · exact h.2.2.2.2.2.1 "iX" ⟨none, none⟩ (by decide) (by decide)

/-! ## Claim C4 -/

/-- C4: on a cache miss the resolver consults the service; a failed
lookup returns the original address, propagates no error (the embedding
is total and the callback error argument is always null), writes nothing
into the cache, and a later resolve of the same address performs the
lookup again; a successful lookup unconditionally writes the derived
name into the cache. -/
theorem C4_failure_policy (g : String → IdResult) (cache : Cache) (a : String)
    (hmiss : jsTruthyStr (objLookup cache a) = false) :
    (resolve g cache a).didLookup = true ∧
    (g a = IdResult.rpcError →
      (resolve g cache a).name = a ∧ (resolve g cache a).cache = cache ∧
      (resolve g (resolve g cache a).cache a).didLookup = true) ∧
    (∀ idrec, g a = IdResult.ok idrec →
      objLookup (resolve g cache a).cache a = some (deriveFriendlyName a idrec)) := by
  refine ⟨?_, ?_, ?_⟩
  · rcases hg : g a with _ | idrec <;> simp [resolve, hmiss, hg]
  · intro hg
    simp [resolve, hmiss, hg]
  · intro idrec hg
    simp [resolve, hmiss, hg, objLookup_objInsert]

/-- C4 witness: the failing lookup `iBBB` (name falls back to the
address, cache untouched, retry performs I/O again) and the successful
lookup `iAAA` (derived name cached). -/
theorem C4_failure_policy_witness :
    (resolve sampleIdOracle [] "iBBB").name = "iBBB" ∧
      (resolve sampleIdOracle [] "iBBB").cache = [] ∧
      (resolve sampleIdOracle (resolve sampleIdOracle [] "iBBB").cache "iBBB").didLookup
        = true ∧
      objLookup (resolve sampleIdOracle [] "iAAA").cache "iAAA" = some "alice" := by
  have h1 := C4_failure_policy sampleIdOracle [] "iBBB" (by decide)
  have h2 := C4_failure_policy sampleIdOracle [] "iAAA" (by decide)
  have hfail := h1.2.1 (by decide)
  have hok := h2.2.2 (some ⟨some ⟨some "alice"⟩, none⟩) (by decide)
  exact ⟨hfail.1, hfail.2.1, hfail.2.2, hok.trans (by decide)⟩

/-! ## Claim C7 -/

/-- C7: for a transaction with non-negative height the transformed
confirmation count is `chainHeight - height + 1`; for a negative height
it is `0` and the transformed object carries no `blocktime` field. -/
theorem C7_confirmations (env : Env) (opts : TransformOptions) (cache : Cache)
    (tx : RawTransaction) (t : TransformedTx)
    (ht : transformTransaction env opts cache tx = some t) :
    (tx.height ≥ 0 → t.confirmations = env.chainHeight - tx.height + 1) ∧
      (tx.height < 0 → t.confirmations = 0 ∧ t.blocktime = none) := by
  obtain ⟨vin, hvin, rfl⟩ := transform_inv env opts cache tx t ht
  constructor
  · intro hge
    simp [assembleTransform, hge]
  · intro hlt
    have hne : ¬ tx.height ≥ 0 := by omega
    simp [assembleTransform, hne]

/-- C7 witness: height 100 at chain height 105 gives 6 confirmations;
height -1 gives 0 confirmations and no blocktime. -/
theorem C7_confirmations_witness :
    ∃ t, transformTransaction sampleEnv {} [] baseRawTx = some t ∧ t.confirmations = 6 ∧
      ∃ t2, transformTransaction sampleEnv {} [] negHeightTx = some t2 ∧
        t2.confirmations = 0 ∧ t2.blocktime = none := by
  have h1 := C7_confirmations sampleEnv {} [] baseRawTx
    (assembleTransform sampleEnv {} [] baseRawTx (mkVinOpt {} baseRawTx).get!) rfl
  have h2 := C7_confirmations sampleEnv {} [] negHeightTx
    (assembleTransform sampleEnv {} [] negHeightTx (mkVinOpt {} negHeightTx).get!) rfl
  refine ⟨_, rfl, (h1.1 (by decide)).trans (by decide), _, rfl, ?_, ?_⟩
  · exact (h2.2 (by decide)).1
  · exact (h2.2 (by decide)).2

/-! ## Claim C8 -/

/-- C8: a coinbase transaction yields a `vin` with exactly one synthetic
element whose `coinbase` field is the first raw input's script and whose
`n` is 0, regardless of how many raw inputs the record has; the raw
input list is not mapped. -/
theorem C8_coinbase_vin (env : Env) (opts : TransformOptions) (cache : Cache)
    (tx : RawTransaction) (t : TransformedTx) (i0 : RawInput) (rest : List RawInput)
    (hcb : tx.coinbase = true) (hin : tx.inputs = i0 :: rest)
    (ht : transformTransaction env opts cache tx = some t) :
    t.vin = [TVinEntry.coinbase i0.script i0.sequence 0] ∧ t.vin.length = 1 := by
  obtain ⟨vin, hvin, rfl⟩ := transform_inv env opts cache tx t ht
  have hv : vin = [TVinEntry.coinbase i0.script i0.sequence 0] := by
    unfold mkVinOpt at hvin
    rw [hcb, hin] at hvin
    simpa using hvin.symm
  have hfield : (assembleTransform env opts cache tx vin).vin = vin := rfl
  rw [hfield, hv]
  exact ⟨rfl, rfl⟩

/-- C8 witness: the sample coinbase transaction has two raw inputs yet a
single synthetic `vin` entry built from the first one. -/
theorem C8_coinbase_vin_witness :
    ∃ t, transformTransaction sampleEnv {} [] coinbaseTx = some t ∧
      coinbaseTx.inputs.length = 2 ∧
      t.vin = [TVinEntry.coinbase "sc" 5 0] ∧ t.vin.length = 1 := by
  have h := C8_coinbase_vin sampleEnv {} [] coinbaseTx
    (assembleTransform sampleEnv {} [] coinbaseTx (mkVinOpt {} coinbaseTx).get!)
    sampleRawInput [{ sampleRawInput with prevTxId := "prev2", script := "cb2" }]
    (by decide) (by decide) rfl
  exact ⟨_, rfl, by decide, h.1.trans (by decide), h.2⟩

/-! ## Claim C9 -/

/-- C9: every transformed output's `value` is the exact eight-decimal
string rendering of its satoshis divided by 1e8, and the transaction
aggregates `valueOut`, `valueIn` and `fees` are the exact numeric
quotients by 1e8 (`valueIn`/`fees` on non-coinbase records); 123456789
satoshis render as the string `1.23456789`. -/
theorem C9_monetary (env : Env) (opts : TransformOptions) (cache : Cache)
    (tx : RawTransaction) (t : TransformedTx)
    (ht : transformTransaction env opts cache tx = some t) :
    (∀ idx o, tx.outputs.get? idx = some o →
      ∃ w, t.vout.get? idx = some w ∧ w.value = toFixed8 o.satoshis) ∧
    t.valueOut = (tx.outputSatoshis : ℚ) / 100000000 ∧
    (tx.coinbase = false →
      t.valueIn = some ((tx.inputSatoshis : ℚ) / 100000000) ∧
      t.fees = some ((tx.feeSatoshis : ℚ) / 100000000)) ∧
    toFixed8 123456789 = "1.23456789" := by
  obtain ⟨vin, hvin, rfl⟩ := transform_inv env opts cache tx t ht
  refine ⟨?_, rfl, ?_, by decide⟩
  · intro idx o ho
    have h0 : (initialVouts env opts tx).get? idx
        = some (transformOutput env opts o idx) := initialVouts_get? env opts tx idx o ho
    obtain ⟨v2, hv2, hval, _, _⟩ :=
      foldl_applyDecodedItem_pres (decodeItemsOf env (initialVouts env opts tx))
        (initialVouts env opts tx, firstWaveAddrs (initialVouts env opts tx)) idx
        (transformOutput env opts o idx) h0
    have hvout : (assembleTransform env opts cache tx vin).vout
        = finalVouts env opts cache tx := rfl
    rw [hvout]
    unfold finalVouts
    rw [List.get?_map]
    have hexp : (expandDecoded env (initialVouts env opts tx)).1.get? idx = some v2 := hv2
    rw [hexp]
    refine ⟨_, rfl, ?_⟩
    rw [applyFriendly_value, hval, transformOutput_value]
  · intro hcb
    constructor
    · simp [assembleTransform, hcb]
    · simp [assembleTransform, hcb]

/-- C9 witness: the sample import transaction has `outputSatoshis`
100000000 rendering `valueOut = 1`, and its first output carries
123456789 satoshis rendering `value = "1.23456789"`. -/
theorem C9_monetary_witness :
    ∃ t, transformTransaction sampleEnv {} [] importTx = some t ∧
      t.valueOut = 1 ∧
      ∃ w, t.vout.get? 0 = some w ∧ w.value = "1.23456789" := by
  have h := C9_monetary sampleEnv {} [] importTx
    (assembleTransform sampleEnv {} [] importTx (mkVinOpt {} importTx).get!) rfl
  obtain ⟨w, hw, hval⟩ := h.1 0 importOutput rfl
  refine ⟨_, rfl, h.2.1.trans (by norm_num [importTx, baseRawTx]), w, hw, hval.trans (by decide)⟩

/-! ## Claim C5 -/

/-- C5 counterexample: the claim as stated is false. For the output with
`valuein = {"iEMPTY": 5}`, the resolution of `iEMPTY` succeeds and its
resolved friendly name is the empty string (friendly name `@` strips to
`""`); the claim says the address key is replaced by its resolved
friendly name, but the merge substitution `nameMapping[a] || a` treats
the empty name as falsy and keeps the address key instead. -/
theorem C5_counterexample :
    objLookup (nameMappingOf sampleEnv [] (initialVouts sampleEnv {} emptyImportTx)) "iEMPTY"
        = some "" ∧
      (transformTransaction sampleEnv {} [] emptyImportTx).map
          (fun t => t.vout.map TOut.crosschainimport)
        = some [some { valuein := some [("iEMPTY", 5)],
                       valueinFriendly := some [("iEMPTY", 5)] }] ∧
      "" ∉ ([("iEMPTY", 5)] : List (String × Int)).map Prod.fst := by
  refine ⟨by decide, by decide, by decide⟩

/-- C5 (amended): for every output carrying a `crosschainimport.valuein`
mapping, the transformed output gains the parallel `valueinFriendly`
mapping obtained by substituting every address key through the combined
two-wave name mapping — the resolved name when it is truthy (non-empty),
else the address itself — with the original amounts as values (a later
entry whose substituted key collides overwrites the earlier value). -/
theorem C5_valuein_friendly (env : Env) (opts : TransformOptions) (cache : Cache)
    (tx : RawTransaction) (t : TransformedTx) (idx : Nat) (o : RawOutput)
    (c : CrossChainImport) (vin : List (String × Int))
    (ht : transformTransaction env opts cache tx = some t)
    (ho : tx.outputs.get? idx = some o)
    (hc : o.crosschainimport = some c) (hv : c.valuein = some vin) :
    ∃ w cci, t.vout.get? idx = some w ∧ w.crosschainimport = some cci ∧
      cci.valuein = some vin ∧
      cci.valueinFriendly
        = some (buildFriendly (nameMappingOf env cache (initialVouts env opts tx)) vin) := by
  obtain ⟨vinE, hvin, rfl⟩ := transform_inv env opts cache tx t ht
  have h0 : (initialVouts env opts tx).get? idx
      = some (transformOutput env opts o idx) := initialVouts_get? env opts tx idx o ho
  obtain ⟨v2, hv2, _, _, hcci⟩ :=
    foldl_applyDecodedItem_pres (decodeItemsOf env (initialVouts env opts tx))
      (initialVouts env opts tx, firstWaveAddrs (initialVouts env opts tx)) idx
      (transformOutput env opts o idx) h0
  have hcci0 : (transformOutput env opts o idx).crosschainimport
      = some ⟨some vin, none⟩ := by
    rw [transformOutput_cci, hc]
    simp [hv]
  have hvout : (assembleTransform env opts cache tx vinE).vout
      = finalVouts env opts cache tx := rfl
  rw [hvout]
  unfold finalVouts
  have hexp : (expandDecoded env (initialVouts env opts tx)).1.get? idx = some v2 := hv2
  rw [List.get?_map, hexp]
  refine ⟨applyFriendly (nameMappingOf env cache (initialVouts env opts tx)) v2,
    ⟨some vin, some (buildFriendly (nameMappingOf env cache (initialVouts env opts tx)) vin)⟩,
    rfl, ?_, rfl, rfl⟩
  rw [applyFriendly_cci, hcci, hcci0]

/-- C5 witness: the example of the claim. The sample import transaction
carries `valuein = {"iAAA":100, "iBBB":50}` where `iAAA` resolves to
`alice` and the lookup of `iBBB` fails, and the transformed output's
`valueinFriendly` equals `{"alice":100, "iBBB":50}`. -/
theorem C5_valuein_friendly_witness :
    ∃ t, transformTransaction sampleEnv {} [] importTx = some t ∧
      ∃ w cci, t.vout.get? 0 = some w ∧ w.crosschainimport = some cci ∧
        cci.valuein = some [("iAAA", 100), ("iBBB", 50)] ∧
        cci.valueinFriendly = some [("alice", 100), ("iBBB", 50)] := by
  obtain ⟨w, cci, h1, h2, h3, h4⟩ := C5_valuein_friendly sampleEnv {} [] importTx
    (assembleTransform sampleEnv {} [] importTx (mkVinOpt {} importTx).get!) 0
    importOutput ({ valuein := some [("iAAA", 100), ("iBBB", 50)] } : CrossChainImport)
    [("iAAA", 100), ("iBBB", 50)] rfl rfl (by decide) (by decide)
  exact ⟨_, rfl, w, cci, h1, h2, h3, h4.trans (by decide)⟩

/-! ## Claim C6 -/

/-- C6: when the script decode of a flagged output errors, the
transformed output carries none of `feepool`, `acceptednotarization` or
`p2shAddress`, and the transform still completes successfully (the
source passes no error to its callback; the only failure mode of the
embedding is the coinbase-without-inputs crash, excluded here). -/
theorem C6_decode_failure (env : Env) (opts : TransformOptions) (cache : Cache)
    (tx : RawTransaction) (idx : Nat) (v : TOut)
    (hv : (initialVouts env opts tx).get? idx = some v)
    (hflag : v.needsScriptDecode = true)
    (herr : env.decodeScript (v.scriptHex.getD "") = none)
    (hok : tx.coinbase = false ∨ tx.inputs ≠ []) :
    ∃ t, transformTransaction env opts cache tx = some t ∧
      ∃ w, t.vout.get? idx = some w ∧
        w.feepool = none ∧ w.acceptednotarization = none ∧ w.p2shAddress = none := by
  have hsome := mkVinOpt_isSome opts tx hok
  rcases hm : mkVinOpt opts tx with _ | vinE
  · rw [hm] at hsome; simp at hsome
  · refine ⟨assembleTransform env opts cache tx vinE, ?_, ?_⟩
    · unfold transformTransaction
      rw [hm]
      rfl
    · obtain ⟨o, ho, rfl⟩ := initialVouts_get?_inv env opts tx idx v hv
      have hitems : ∀ it ∈ decodeItemsOf env (initialVouts env opts tx),
          it.idx = idx → it.decoded = none := by
        intro it hit hidx
        have hd := decodeItemsOf_determined env (initialVouts env opts tx) it
          (transformOutput env opts o idx) hit (by rw [hidx]; exact hv)
        rw [hd.1, herr]
      have hexp : (expandDecoded env (initialVouts env opts tx)).1.get? idx
          = some (transformOutput env opts o idx) :=
        foldl_applyDecodedItem_get?_none_decoded _ _ idx _ hitems hv
      have hvout : (assembleTransform env opts cache tx vinE).vout
          = finalVouts env opts cache tx := rfl
      rw [hvout]
      unfold finalVouts
      rw [List.get?_map, hexp]
      obtain ⟨hf, ha, hp⟩ := transformOutput_enrich_none env opts o idx
      refine ⟨_, rfl, ?_, ?_, ?_⟩
      · rw [applyFriendly_feepool, hf]
      · rw [applyFriendly_accnot, ha]
      · rw [applyFriendly_p2sh, hp]

/-- C6 witness: the flagged OP_RETURN output of the sample failing
transaction decodes with an RPC error, and the transform still returns a
transformed object whose output carries none of the three fields. -/
theorem C6_decode_failure_witness :
    ∃ t, transformTransaction sampleEnv {} [] failTx = some t ∧
      ∃ w, t.vout.get? 0 = some w ∧
        w.feepool = none ∧ w.acceptednotarization = none ∧ w.p2shAddress = none :=
  C6_decode_failure sampleEnv {} [] failTx 0 (transformOutput sampleEnv {} opOutput 0)
    rfl (by decide) (by decide) (Or.inl (by decide))

/-! ## Claim C2 -/

/-- C2 (amended): when a flagged fee-pool output decodes successfully and
its `currencyvalues` mapping contains an identity address `a` not in the
wave-1 resolution set, then `a` appears exactly once in the second-wave
pending list (so exactly one second-wave resolution call is made for it),
the combined name mapping resolves `a`, and — provided the resolved name
is truthy (non-empty) — the output's final `currencyvaluesFriendly`
carries that name as a key. -/
theorem C2_second_wave (env : Env) (opts : TransformOptions) (cache : Cache)
    (tx : RawTransaction) (t : TransformedTx) (idx : Nat) (v : TOut) (d : DecodedScript)
    (fp : DecodedFeePool) (cv : List (String × Int)) (a : String)
    (ht : transformTransaction env opts cache tx = some t)
    (hv : (initialVouts env opts tx).get? idx = some v)
    (hflag : v.needsScriptDecode = true)
    (htype : v.scriptDecodeType = some "feepool")
    (hdec : env.decodeScript (v.scriptHex.getD "") = some d)
    (hfp : d.feepool = some fp) (hcv : fp.currencyvalues = some cv)
    (ha : a ∈ cv.map Prod.fst) (hai : strStartsWith a "i" = true)
    (hnew : a ∉ firstWaveAddrs (initialVouts env opts tx)) :
    (secondWaveAddrs env (initialVouts env opts tx)).count a = 1 ∧
      (objLookup (nameMappingOf env cache (initialVouts env opts tx)) a).isSome ∧
      (∀ n, objLookup (nameMappingOf env cache (initialVouts env opts tx)) a = some n →
        n ≠ "" →
        ∃ w fpT fr, t.vout.get? idx = some w ∧ w.feepool = some fpT ∧
          fpT.currencyvaluesFriendly = some fr ∧ n ∈ fr.map Prod.fst) := by
  obtain ⟨vinE, hvin, rfl⟩ := transform_inv env opts cache tx t ht
  -- the decode item of this output
  have hmem : (⟨idx, some d, "feepool"⟩ : DecodeItem)
      ∈ decodeItemsOf env (initialVouts env opts tx) := by
    have h := decodeItemsOf_mem env (initialVouts env opts tx) idx v hv hflag
    rw [hdec, htype] at h
    simpa using h
  obtain ⟨pre, post, hsplit⟩ := List.append_of_mem hmem
  have hnd := decodeItemsOf_idx_nodup env (initialVouts env opts tx)
  rw [hsplit] at hnd
  obtain ⟨hpre, hpost⟩ := nodup_middle pre ⟨idx, some d, "feepool"⟩ post hnd
  -- decompose the expansion fold around the item
  have hexp1 : expandDecoded env (initialVouts env opts tx)
      = List.foldl applyDecodedItem
          (applyDecodedItem
            (List.foldl applyDecodedItem
              (initialVouts env opts tx, firstWaveAddrs (initialVouts env opts tx)) pre)
            ⟨idx, some d, "feepool"⟩)
          post := by
    unfold expandDecoded
    rw [hsplit, List.foldl_append, List.foldl_cons]
  have hst1v : (List.foldl applyDecodedItem
      (initialVouts env opts tx, firstWaveAddrs (initialVouts env opts tx)) pre).1.get? idx
      = some v := by
    rw [foldl_applyDecodedItem_get?_untouched pre _ idx hpre]
    exact hv
  obtain ⟨hat1, hat2⟩ := applyDecodedItem_at_idx
    (List.foldl applyDecodedItem
      (initialVouts env opts tx, firstWaveAddrs (initialVouts env opts tx)) pre)
    ⟨idx, some d, "feepool"⟩ v hst1v
  have hfcv : feepoolOfDecoded (some d) = some cv := by
    simp [feepoolOfDecoded, hfp, hcv]
  obtain ⟨hproc1, hproc2⟩ := processVoutAddrs_feepool v
    (List.foldl applyDecodedItem
      (initialVouts env opts tx, firstWaveAddrs (initialVouts env opts tx)) pre).2
    ⟨idx, some d, "feepool"⟩ cv rfl hfcv
  -- the expanded output at idx carries the decoded fee pool
  have hfinalv : (expandDecoded env (initialVouts env opts tx)).1.get? idx
      = some { v with feepool := some { currencyvalues := cv, currencyvaluesFriendly := none } } := by
    rw [hexp1, foldl_applyDecodedItem_get?_untouched post _ idx hpost, hat1, hproc1]
  -- the discovered address is in the final address list
  have hmemA : a ∈ (expandDecoded env (initialVouts env opts tx)).2 := by
    rw [hexp1]
    apply foldl_applyDecodedItem_mem_addrs
    rw [hat2, hproc2]
    exact mem_pushIAddrs_of_key _ (cv.map Prod.fst) a ha hai
  have hndA : (expandDecoded env (initialVouts env opts tx)).2.Nodup := by
    unfold expandDecoded
    exact foldl_applyDecodedItem_addrs_nodup _ _
      (firstWaveAddrs_nodup (initialVouts env opts tx))
  obtain ⟨suf, hsuf⟩ := foldl_applyDecodedItem_addrs_append
    (decodeItemsOf env (initialVouts env opts tx))
    (initialVouts env opts tx, firstWaveAddrs (initialVouts env opts tx))
  have hsuf2 : (expandDecoded env (initialVouts env opts tx)).2
      = firstWaveAddrs (initialVouts env opts tx) ++ suf := hsuf
  have hwave2 : secondWaveAddrs env (initialVouts env opts tx) = suf := by
    unfold secondWaveAddrs
    rw [hsuf2, List.drop_left]
  have hmemsuf : a ∈ suf := by
    rw [hsuf2] at hmemA
    rcases List.mem_append.mp hmemA with h | h
    · exact absurd h hnew
    · exact h
  have hndsuf : suf.Nodup := by
    rw [hsuf2] at hndA
    exact hndA.of_append_right
  refine ⟨?_, ?_, ?_⟩
  · rw [hwave2]
    exact count_eq_one_of_nodup_mem suf a hndsuf hmemsuf
  · apply nameMappingOf_isSome
    apply List.mem_append_right
    rw [hwave2]
    exact hmemsuf
  · intro n hn hne
    have hkey : friendlyKey (nameMappingOf env cache (initialVouts env opts tx)) a = n := by
      unfold friendlyKey
      rw [hn]
      simp [hne]
    have hinkeys := buildFriendly_key_mem
      (nameMappingOf env cache (initialVouts env opts tx)) cv a ha
    rw [hkey] at hinkeys
    have hvout : (assembleTransform env opts cache tx vinE).vout
        = finalVouts env opts cache tx := rfl
    rw [hvout]
    unfold finalVouts
    rw [List.get?_map, hfinalv]
    refine ⟨applyFriendly (nameMappingOf env cache (initialVouts env opts tx))
        { v with feepool := some { currencyvalues := cv, currencyvaluesFriendly := none } },
      { currencyvalues := cv,
        currencyvaluesFriendly :=
          some (buildFriendly (nameMappingOf env cache (initialVouts env opts tx)) cv) },
      buildFriendly (nameMappingOf env cache (initialVouts env opts tx)) cv,
      rfl, ?_, rfl, hinkeys⟩
    rw [applyFriendly_feepool]

/-- C2 counterexample: the claim as stated is false in its final-mapping
part. The fee-pool decode of the sample transaction reveals `iEMPTY`,
unseen in wave 1; exactly one second-wave resolution is performed and it
succeeds, but the resolved friendly name is the empty string (friendly
name `@` strips to `""`), so the final `currencyvaluesFriendly` carries
the address `iEMPTY` as key, not the resolved name. -/
theorem C2_counterexample :
    (secondWaveAddrs sampleEnv (initialVouts sampleEnv {} emptyNameTx)).count "iEMPTY" = 1 ∧
      objLookup (nameMappingOf sampleEnv [] (initialVouts sampleEnv {} emptyNameTx)) "iEMPTY"
        = some "" ∧
      (transformTransaction sampleEnv {} [] emptyNameTx).map
          (fun t => t.vout.map TOut.feepool)
        = some [some { currencyvalues := [("iEMPTY", 9)],
                       currencyvaluesFriendly := some [("iEMPTY", 9)] }] ∧
      "" ∉ ([("iEMPTY", 9)] : List (String × Int)).map Prod.fst := by
  refine ⟨by decide, by decide, by decide, by decide⟩

/-- C2 witness: the sample import transaction, whose fee-pool decode
reveals `iCCC` (resolved in wave 2 to `carol` via suffix stripping),
which ends up as a key of the final `currencyvaluesFriendly`. -/
theorem C2_second_wave_witness :
    (secondWaveAddrs sampleEnv (initialVouts sampleEnv {} importTx)).count "iCCC" = 1 ∧
      ∃ w fpT fr,
        (assembleTransform sampleEnv {} [] importTx (mkVinOpt {} importTx).get!).vout.get? 1
            = some w ∧
          w.feepool = some fpT ∧ fpT.currencyvaluesFriendly = some fr ∧
          "carol" ∈ fr.map Prod.fst := by
  have h := C2_second_wave sampleEnv {} [] importTx
    (assembleTransform sampleEnv {} [] importTx (mkVinOpt {} importTx).get!) 1
    (transformOutput sampleEnv {} fpOutput 1) sampleDecoded
    ({ currencyvalues := some [("iCCC", 7)] } : DecodedFeePool) [("iCCC", 7)] "iCCC"
    rfl rfl (by decide) (by decide) (by decide) (by decide) (by decide) (by decide)
    (by decide) (by decide)
  exact ⟨h.1, h.2.2 "carol" (by decide) (by decide)⟩

/-! ## Claim C10 -/

theorem applyFriendly_cci_none (nm : List (String × String)) (v : TOut)
    (hc : v.crosschainimport = none) : (applyFriendly nm v).crosschainimport = none := by
  rw [applyFriendly_cci]
  simp [hc]

theorem applyFriendly_cci_some_none (nm : List (String × String)) (v : TOut)
    (cci : TCrossChainImport) (hc : v.crosschainimport = some cci)
    (hv : cci.valuein = none) : (applyFriendly nm v).crosschainimport = some cci := by
  rw [applyFriendly_cci]
  simp [hc, hv]

theorem applyFriendly_cci_some_some (nm : List (String × String)) (v : TOut)
    (cci : TCrossChainImport) (vin : List (String × Int))
    (hc : v.crosschainimport = some cci) (hv : cci.valuein = some vin) :
    (applyFriendly nm v).crosschainimport
      = some { cci with valueinFriendly := some (buildFriendly nm vin) } := by
  rw [applyFriendly_cci]
  simp [hc, hv]

theorem applyFriendly_feepool_none (nm : List (String × String)) (v : TOut)
    (hf : v.feepool = none) : (applyFriendly nm v).feepool = none := by
  rw [applyFriendly_feepool]
  simp [hf]

theorem applyFriendly_feepool_some (nm : List (String × String)) (v : TOut) (fp : TFeePool)
    (hf : v.feepool = some fp) :
    (applyFriendly nm v).feepool
      = some { fp with currencyvaluesFriendly := some (buildFriendly nm fp.currencyvalues) } := by
  rw [applyFriendly_feepool]
  simp [hf]

/-- C10: in every transformed output the friendly-keyed mappings have at
most as many entries as their source mappings and every amount in them
is an amount of the source mapping; lookups in `valueinFriendly` return
the amount of the last source entry whose substituted key matches (the
later-enumerated address overwrites the earlier on collision); and at
the concrete collapse input, two addresses resolving to one name yield a
strictly smaller mapping holding the later amount (so the amounts need
not sum to the source total). -/
theorem C10_friendly_invariants (env : Env) (opts : TransformOptions) (cache : Cache)
    (tx : RawTransaction) (t : TransformedTx)
    (ht : transformTransaction env opts cache tx = some t) :
    (∀ w ∈ t.vout, ∀ cci vin fr, w.crosschainimport = some cci → cci.valuein = some vin →
      cci.valueinFriendly = some fr →
      fr.length ≤ vin.length ∧
      (∀ x ∈ fr.map Prod.snd, x ∈ vin.map Prod.snd) ∧
      (∀ k, objLookup fr k
        = ((vin.map (fun p =>
            (friendlyKey (nameMappingOf env cache (initialVouts env opts tx)) p.1,
              p.2))).reverse.find? (fun p => p.1 == k)).map Prod.snd)) ∧
    (∀ w ∈ t.vout, ∀ fpT fr, w.feepool = some fpT →
      fpT.currencyvaluesFriendly = some fr →
      fr.length ≤ fpT.currencyvalues.length ∧
      (∀ x ∈ fr.map Prod.snd, x ∈ fpT.currencyvalues.map Prod.snd)) ∧
    ((transformTransaction sampleEnv {} [] collapseTx).map
        (fun t2 => t2.vout.map TOut.crosschainimport)
      = some [some { valuein := some [("iD1", 1), ("iD2", 2)],
                     valueinFriendly := some [("dup", 2)] }]) := by
  obtain ⟨vinE, hvin, rfl⟩ := transform_inv env opts cache tx t ht
  have hvout : (assembleTransform env opts cache tx vinE).vout
      = finalVouts env opts cache tx := rfl
  refine ⟨?_, ?_, by decide⟩
  · intro w hw cci vin fr hcci hvin2 hfr
    rw [hvout] at hw
    unfold finalVouts at hw
    obtain ⟨w2, _, rfl⟩ := List.mem_map.mp hw
    rcases hc : w2.crosschainimport with _ | cci2
    · rw [applyFriendly_cci_none _ w2 hc] at hcci
      simp at hcci
    · rcases hv2 : cci2.valuein with _ | vin2
      · rw [applyFriendly_cci_some_none _ w2 cci2 hc hv2] at hcci
        have hcc : cci2 = cci := Option.some.inj hcci
        subst hcc
        rw [hv2] at hvin2
        simp at hvin2
      · rw [applyFriendly_cci_some_some _ w2 cci2 vin2 hc hv2] at hcci
        have hcc := Option.some.inj hcci
        subst hcc
        simp only at hvin2 hfr
        rw [hv2] at hvin2
        have hvv : vin2 = vin := by simpa using hvin2
        subst hvv
        have hff : buildFriendly (nameMappingOf env cache (initialVouts env opts tx)) vin2
            = fr := by simpa using hfr
        subst hff
        refine ⟨buildFriendly_length _ _, fun x hx => buildFriendly_snd _ _ x hx, ?_⟩
        intro k
        exact buildFriendly_lookup _ _ k
  · intro w hw fpT fr hfp hfr
    rw [hvout] at hw
    unfold finalVouts at hw
    obtain ⟨w2, _, rfl⟩ := List.mem_map.mp hw
    rcases hc : w2.feepool with _ | fp2
    · rw [applyFriendly_feepool_none _ w2 hc] at hfp
      simp at hfp
    · rw [applyFriendly_feepool_some _ w2 fp2 hc] at hfp
      have hcc := Option.some.inj hfp
      subst hcc
      simp only at hfr
      have hff : buildFriendly (nameMappingOf env cache (initialVouts env opts tx))
          fp2.currencyvalues = fr := by simpa using hfr
      subst hff
      exact ⟨buildFriendly_length _ _, fun x hx => buildFriendly_snd _ _ x hx⟩

/-- C10 witness: the invariants instantiated at the sample import
transaction's first output, whose `valueinFriendly` has two entries
bounded by the two source entries with amounts drawn from the source. -/
theorem C10_friendly_invariants_witness :
    ∃ t w cci fr, transformTransaction sampleEnv {} [] importTx = some t ∧
      t.vout.get? 0 = some w ∧ w.crosschainimport = some cci ∧
      cci.valueinFriendly = some fr ∧
      fr.length ≤ ([("iAAA", 100), ("iBBB", 50)] : List (String × Int)).length ∧
      (∀ x ∈ fr.map Prod.snd,
        x ∈ ([("iAAA", 100), ("iBBB", 50)] : List (String × Int)).map Prod.snd) := by
  have h := C10_friendly_invariants sampleEnv {} [] importTx
    (assembleTransform sampleEnv {} [] importTx (mkVinOpt {} importTx).get!) rfl
  have hconc : ((assembleTransform sampleEnv {} [] importTx
        (mkVinOpt {} importTx).get!).vout.get? 0).map TOut.crosschainimport
      = some (some { valuein := some [("iAAA", 100), ("iBBB", 50)],
                     valueinFriendly := some [("alice", 100), ("iBBB", 50)] }) := by
    decide
  rcases hg : (assembleTransform sampleEnv {} [] importTx
      (mkVinOpt {} importTx).get!).vout.get? 0 with _ | w0
  · rw [hg] at hconc
    simp at hconc
  · rw [hg] at hconc
    simp only [Option.map_some'] at hconc
    have hcci := Option.some.inj hconc
    obtain ⟨hl, hs, _⟩ := h.1 w0 (List.get?_mem hg)
      { valuein := some [("iAAA", 100), ("iBBB", 50)],
        valueinFriendly := some [("alice", 100), ("iBBB", 50)] }
      [("iAAA", 100), ("iBBB", 50)] [("alice", 100), ("iBBB", 50)]
      hcci rfl rfl
    exact ⟨_, _, _, _, rfl, hg, hcci, rfl, hl, hs⟩

end InsightKomodo
